import Mathlib

/-!
Verification development for the videoTracker canvas-maintenance scripts
(`add_shell_nodes.py`, `update_all_nodes.py`, `update_node_titles.py`,
`update_existing_canvas.py`, `generate_uml_canvas.py`).

The scripts are shallowly embedded: Python strings become `List Char`
(`Str`), the file system becomes a function from paths to optional,
optionally-readable contents, unspecified iteration order of Python sets
and the random uuid supply become explicit parameters, and every regular
expression used by the scripts becomes a hand-written scanner over
character lists whose (deterministic) behaviour matches the backtracking
semantics of Python's `re.search`/`re.finditer` on that fixed pattern.
Machine floats only occur as `float(x)` casts of small integers, which are
exact, so coordinates are modelled as `Int`.
-/

/-- Program text is modelled as a list of characters. -/
abbrev Str := List Char

/-- Conversion from Lean string literals to the `Str` model. -/
def tl (s : String) : Str := s.data

/-- The character `{`, written via a code point to keep it out of string
literals. -/
def lbrace : Char := Char.ofNat 123

/-- The character `}`. -/
def rbrace : Char := Char.ofNat 125

/-- Python's `\s` class, restricted to the ASCII whitespace the headers use:
space, tab, newline, carriage return, vertical tab, form feed. -/
def isPySpace (c : Char) : Bool :=
  c = ' ' || c = '\t' || c = '\n' || c = '\r' || c = '\x0b' || c = '\x0c'

/-- Python's `\w` class, restricted to ASCII: letters, digits, underscore. -/
def isPyWord (c : Char) : Bool := c.isAlpha || c.isDigit || c = '_'

/-- Python `str.strip()`: remove whitespace from both ends. -/
def pyStrip (s : Str) : Str :=
  ((s.dropWhile isPySpace).reverse.dropWhile isPySpace).reverse

/-- Python `str.strip(chars)`: remove any of `cs` from both ends. -/
def pyStripChars (cs : List Char) (s : Str) : Str :=
  ((s.dropWhile (cs.contains ·)).reverse.dropWhile (cs.contains ·)).reverse

/-- Worker for `replaceAll` (fuel-structural; every step consumes at least
one character of `s`, so `s.length` fuel suffices). -/
def replaceAllGo (old new : Str) : Nat → Str → Str
  | 0, s => s
  | _ + 1, [] => []
  | fuel + 1, c :: rest =>
    if old ≠ [] ∧ old.isPrefixOf (c :: rest) then
      new ++ replaceAllGo old new fuel ((c :: rest).drop old.length)
    else c :: replaceAllGo old new fuel rest

/-- Python `str.replace(old, new)` for a non-empty `old`: replace all
non-overlapping occurrences left to right.  (The scripts never call
`replace` with an empty pattern; for `old = []` this returns `s`.) -/
def replaceAll (old new : Str) (s : Str) : Str := replaceAllGo old new s.length s

/-- Python `sub in s` (substring containment). -/
def containsSub (needle : Str) : Str → Bool
  | [] => needle.isEmpty
  | c :: rest => needle.isPrefixOf (c :: rest) || containsSub needle rest

/-- Split on newline characters, Python `content.split('\n')`. -/
def splitNl (s : Str) : List Str := s.splitOn '\n'

/-- Rejoin lines with newlines, Python `'\n'.join(lines)`. -/
def joinNl (ls : List Str) : Str := List.intercalate ['\n'] ls

/-- Python `str.lower()` (ASCII; the method names fed to it are ASCII). -/
def toLowerStr (s : Str) : Str := s.map Char.toLower

/-- Decimal rendering of a natural number, for log strings. -/
def natStr (n : Nat) : Str := (Nat.repr n).data

/-- Whether any of the keywords occurs as a substring,
Python `any(kw in s for kw in kws)`. -/
def anyKwIn (kws : List Str) (s : Str) : Bool := kws.any (fun k => containsSub k s)

/-- First component of `span`: longest prefix of word characters. -/
def wordRun (s : Str) : Str := s.takeWhile isPyWord

/-- Remainder after the longest prefix of word characters. -/
def wordRest (s : Str) : Str := s.dropWhile isPyWord

/-- Lookup in an association list keyed by `Str`, with a default
(Python `dict.get(k, d)`; dict keys are unique so first match wins). -/
def lookupD (t : List (Str × Str)) (n : Str) : Str :=
  match t with
  | [] => []
  | (k, v) :: r => if n = k then v else lookupD r n

/-- Lookup in an association list, returning an option. -/
def lookupP {α : Type} (t : List (Str × α)) (n : Str) : Option α :=
  match t with
  | [] => none
  | (k, v) :: r => if n = k then some v else lookupP r n

/-- Insert-or-replace for an insertion-ordered association list,
modelling assignment into a Python dict. -/
def upsert {α : Type} (t : List (Str × α)) (k : Str) (v : α) : List (Str × α) :=
  match t with
  | [] => [(k, v)]
  | (k', v') :: r => if k' = k then (k, v) :: r else (k', v') :: upsert r k v

/-- Find the first occurrence of the non-empty needle `n :: ns`; returns the
part before it and the part after it. -/
def splitSub (n : Char) (ns : Str) : Str → Option (Str × Str)
  | [] => none
  | c :: rest =>
    if (n :: ns).isPrefixOf (c :: rest) then some ([], (c :: rest).drop (ns.length + 1))
    else (splitSub n ns rest).map (fun p => (c :: p.1, p.2))

/-! ### Comment and string-literal preprocessing

All header-scanning functions first run
`re.sub(r'//.*?$', '', content, flags=re.MULTILINE)` and
`re.sub(r'/\*.*?\*/', '', content, flags=re.DOTALL)`; the versions in
`update_node_titles.py` and `update_all_nodes.py` additionally run
`re.sub(r'"[^"]*"', '""', ...)` and `re.sub(r"'[^']*'", "''", ...)`. -/

/-- Remove a `//` line comment: truncate the line at its first `//`. -/
def stripLineComment (line : Str) : Str :=
  match splitSub '/' ['/'] line with
  | none => line
  | some (before, _) => before

/-- `re.sub(r'//.*?$', '', content, re.MULTILINE)`: since `$` matches at each
line end, every line is truncated at its first `//`. -/
def stripLineComments (s : Str) : Str := joinNl ((splitNl s).map stripLineComment)

/-- Length bound on `dropWhile`, used in termination arguments. -/
theorem dropWhileLenLe (p : Char → Bool) (l : List Char) :
    (l.dropWhile p).length ≤ l.length := by
  induction l with
  | nil => simp
  | cons c rest ih =>
    simp only [List.dropWhile]
    split
    · simp only [List.length_cons]; omega
    · simp only [List.length_cons]; omega

/-- Length bound for `splitSub`: on success the remainder lost the needle. -/
theorem splitSub_length {n : Char} {ns : Str} {l a b : Str}
    (h : splitSub n ns l = some (a, b)) : b.length + ns.length + 1 ≤ l.length := by
  induction l generalizing a b with
  | nil => simp [splitSub] at h
  | cons c rest ih =>
    simp only [splitSub] at h
    split at h
    · rename_i hp
      have hl : (ns.length + 1) ≤ (c :: rest).length := by
        have := List.IsPrefix.length_le (List.isPrefixOf_iff_prefix.mp hp)
        simpa using this
      simp only [Option.some.injEq, Prod.mk.injEq] at h
      obtain ⟨-, h2⟩ := h
      subst h2
      simp only [List.length_drop]
      omega
    · cases hs : splitSub n ns rest with
      | none => simp [hs] at h
      | some p =>
        obtain ⟨a', b'⟩ := p
        rw [hs] at h
        simp only [Option.map, Option.some.injEq, Prod.mk.injEq] at h
        obtain ⟨-, h2⟩ := h
        subst h2
        have := ih hs
        simp only [List.length_cons]
        omega

/-- Worker for `stripBlockComments`, structurally recursive on a fuel that
bounds the number of removed blocks (each iteration consumes at least the
four characters `/*`…`*/`, so a fuel of `s.length` can never run out). -/
def stripBlockCommentsGo : Nat → Str → Str
  | 0, s => s
  | fuel + 1, s =>
    match splitSub '/' ['*'] s with
    | none => s
    | some (before, rest) =>
      match splitSub '*' ['/'] rest with
      | none => s
      | some (_, after) => before ++ stripBlockCommentsGo fuel after

/-- `re.sub(r'/\*.*?\*/', '', content, re.DOTALL)`: each lazily-matched
`/* ... */` block (up to the first following `*/`) is removed; an unclosed
`/*` matches nothing and is left in place. -/
def stripBlockComments (s : Str) : Str := stripBlockCommentsGo s.length s

/-- Worker for `stripDq` (fuel-structural; every step consumes at least
one character, so `s.length` fuel suffices). -/
def stripDqGo : Nat → Str → Str
  | 0, s => s
  | _ + 1, [] => []
  | fuel + 1, c :: rest =>
    if c = '"' then
      match rest.dropWhile (fun d => d != '"') with
      | '"' :: r2 => '"' :: '"' :: stripDqGo fuel r2
      | _ => c :: rest
    else c :: stripDqGo fuel rest

/-- `re.sub(r'"[^"]*"', '""', s)`: each double-quoted literal without inner
quotes becomes an empty literal; an unmatched final quote is untouched. -/
def stripDq (s : Str) : Str := stripDqGo s.length s

/-- Worker for `stripSq` (fuel-structural like `stripDqGo`). -/
def stripSqGo : Nat → Str → Str
  | 0, s => s
  | _ + 1, [] => []
  | fuel + 1, c :: rest =>
    if c = '\'' then
      match rest.dropWhile (fun d => d != '\'') with
      | '\'' :: r2 => '\'' :: '\'' :: stripSqGo fuel r2
      | _ => c :: rest
    else c :: stripSqGo fuel rest

/-- `re.sub(r"'[^']*'", "''", s)`, the single-quote analogue of `stripDq`. -/
def stripSq (s : Str) : Str := stripSqGo s.length s

/-! ### Scanners for the fixed regular expressions of the scripts

Each scanner reproduces `re.search` (leftmost match, greedy quantifiers,
backtracking) for one fixed pattern.  Word-boundary `\b` checks are
threaded as a `prevWord : Bool` flag recording whether the character just
before the current position is a word character (`false` at the start of
the searched string). -/

/-- Drop leading Python whitespace (a greedy `\s*`). -/
def skipWs (l : Str) : Str := l.dropWhile isPySpace

/-- Scanner for `#\s*(\w+)\.` (class-name harvesting in
`add_shell_nodes.add_shell_nodes`): the pattern is anchored at a literal
`#`, and `\s*`/`\w+` are forced to their greedy spans because the
follow-up characters are disjoint from the classes.  Returns group 1. -/
def searchHashNameDot : Str → Option Str
  | [] => none
  | c :: rest =>
    if c = '#' then
      let r1 := skipWs rest
      let w := wordRun r1
      if w ≠ [] ∧ (wordRest r1).head? = some '.' then some w
      else searchHashNameDot rest
    else searchHashNameDot rest

/-- Scanner for `#\s*Shell\.` (`find_shell_node_position`). -/
def hasHashShellDot : Str → Bool
  | [] => false
  | c :: rest =>
    if c = '#' then
      (tl "Shell.").isPrefixOf (skipWs rest) || hasHashShellDot rest
    else hasHashShellDot rest

/-- Scanner for `#\s*(\w+)\.(?:cpp/)?h` (title pattern 1 of
`update_all_nodes.update_all_nodes` and `update_node_titles.main`).
After the greedy `\w+` group the tail must be `.cpp/h` (option taken) or
`.h` (option skipped, tried second); group 1 is the same either way. -/
def searchHashNameDotH : Str → Option Str
  | [] => none
  | c :: rest =>
    if c = '#' then
      let r1 := skipWs rest
      let w := wordRun r1
      if w ≠ [] ∧ ((tl ".cpp/h").isPrefixOf (wordRest r1) ∨ (tl ".h").isPrefixOf (wordRest r1))
      then some w
      else searchHashNameDotH rest
    else searchHashNameDotH rest

/-- Scanner for `\*(\w+)\*` (title pattern 2, abstract-class names). -/
def searchStarName : Str → Option Str
  | [] => none
  | c :: rest =>
    if c = '*' then
      let w := wordRun rest
      if w ≠ [] ∧ (wordRest rest).head? = some '*' then some w
      else searchStarName rest
    else searchStarName rest

/-- Does `\bclass\s+\w+` match anywhere (used by the per-line class-start
test of the brace-depth scanners)? -/
def classWordSearch (prevWord : Bool) : Str → Bool
  | [] => false
  | c :: rest =>
    (!prevWord && (tl "class").isPrefixOf (c :: rest) &&
      ((c :: rest).drop 5).takeWhile isPySpace ≠ [] &&
      (skipWs ((c :: rest).drop 5)).head?.any isPyWord)
    || classWordSearch (isPyWord c) rest

/-- Line-level class-start test of the brace-depth scanners:
`re.search(r'\bclass\s+\w+', line) and '{' in line`. -/
def isClassStartLine (line : Str) : Bool :=
  classWordSearch false line && line.contains lbrace

/-- Does `\bpublic\s*:` match anywhere in the line? -/
def publicColonSearch (prevWord : Bool) : Str → Bool
  | [] => false
  | c :: rest =>
    (!prevWord && (tl "public").isPrefixOf (c :: rest) &&
      (skipWs ((c :: rest).drop 6)).head? = some ':')
    || publicColonSearch (isPyWord c) rest

/-- Line-level `public:` test. -/
def isPublicLine (line : Str) : Bool := publicColonSearch false line

/-- Does `\b(private|protected)\s*:` match anywhere in the line? -/
def privProtColonSearch (prevWord : Bool) : Str → Bool
  | [] => false
  | c :: rest =>
    (!prevWord &&
      (((tl "private").isPrefixOf (c :: rest) &&
        (skipWs ((c :: rest).drop 7)).head? = some ':') ||
       ((tl "protected").isPrefixOf (c :: rest) &&
        (skipWs ((c :: rest).drop 9)).head? = some ':')))
    || privProtColonSearch (isPyWord c) rest

/-- Line-level `private:`/`protected:` test. -/
def isPrivProtLine (line : Str) : Bool := privProtColonSearch false line

/-- Scanner for `\bclass\s+(\w+)` (constructor look-back in
`update_node_titles.extract_all_public_methods`), returning group 1. -/
def searchClassNameLine (prevWord : Bool) : Str → Option Str
  | [] => none
  | c :: rest =>
    if !prevWord && (tl "class").isPrefixOf (c :: rest) &&
        ((c :: rest).drop 5).takeWhile isPySpace ≠ [] &&
        wordRun (skipWs ((c :: rest).drop 5)) ≠ [] then
      some (wordRun (skipWs ((c :: rest).drop 5)))
    else searchClassNameLine (isPyWord c) rest

/-! ### The method-declaration patterns

The simple method pattern
`\b(\w+)\s*\([^)]*\)\s*(?:const\s*)?(?:override\s*)?(?:=\s*0\s*)?[;{]`
(and its variants without `\b`, without `override`, with only `;` or only
`{` as terminator) decomposes into a forced greedy name run, a forced
parenthesis part (`[^)]*` cannot cross the first `)`), and optional
literal chunks.  Taking an optional chunk whose literal is present is
faithful to the backtracking engine: if the continuation after taking it
fails, the skipping branch immediately needs a terminator character at
`c`/`o`/`=`, which also fails. -/

/-- Matches `\s*\([^)]*\)`; returns the rest after `)`. -/
def parenPart (l : Str) : Option Str :=
  match skipWs l with
  | '(' :: r3 =>
    match r3.dropWhile (fun d => d != ')') with
    | ')' :: r5 => some r5
    | _ => none
  | _ => none

/-- `parenPart` consumes at least the two parentheses. -/
theorem parenPart_length {l r : Str} (h : parenPart l = some r) :
    r.length + 2 ≤ l.length := by
  unfold parenPart at h
  have h1 : (skipWs l).length ≤ l.length := dropWhileLenLe _ _
  split at h
  · rename_i r3 heq
    have h2 : ('(' :: r3).length ≤ l.length := heq ▸ h1
    split at h
    · rename_i r5 heq2
      have h3 : (r3.dropWhile (fun d => d != ')')).length ≤ r3.length := dropWhileLenLe _ _
      rw [heq2] at h3
      simp only [Option.some.injEq] at h
      subst h
      simp only [List.length_cons] at h2 h3
      omega
    · exact absurd h (by simp)
  · exact absurd h (by simp)

/-- Matches the optional `(?:const\s*)?`. -/
def constOptSkip (r6 : Str) : Str :=
  if (tl "const").isPrefixOf r6 then skipWs (r6.drop 5) else r6

/-- `constOptSkip` never grows its input. -/
theorem constOptSkip_length (r6 : Str) : (constOptSkip r6).length ≤ r6.length := by
  unfold constOptSkip
  split
  · calc (skipWs (r6.drop 5)).length ≤ (r6.drop 5).length := dropWhileLenLe _ _
      _ ≤ r6.length := by simp only [List.length_drop]; omega
  · exact Nat.le_refl _

/-- Matches the optional `(?:override\s*)?` (only when `ovr` is set). -/
def overrideOptSkip (ovr : Bool) (r7 : Str) : Str :=
  if ovr && (tl "override").isPrefixOf r7 then skipWs (r7.drop 8) else r7

/-- `overrideOptSkip` never grows its input. -/
theorem overrideOptSkip_length (ovr : Bool) (r7 : Str) :
    (overrideOptSkip ovr r7).length ≤ r7.length := by
  unfold overrideOptSkip
  split
  · calc (skipWs (r7.drop 8)).length ≤ (r7.drop 8).length := dropWhileLenLe _ _
      _ ≤ r7.length := by simp only [List.length_drop]; omega
  · exact Nat.le_refl _

/-- Matches the optional `(?:=\s*0\s*)?`; fails only when `=` is present but
not followed by `\s*0` (in which case the skipping branch would need a
terminator at `=` and fail too). -/
def eqZeroOpt (l : Str) : Option Str :=
  match l with
  | '=' :: r9 =>
    match skipWs r9 with
    | '0' :: r11 => some (skipWs r11)
    | _ => none
  | _ => some l

/-- `eqZeroOpt` never grows its input. -/
theorem eqZeroOpt_length {l r : Str} (h : eqZeroOpt l = some r) :
    r.length ≤ l.length := by
  unfold eqZeroOpt at h
  split at h
  · rename_i r9
    split at h
    · rename_i r11 heq
      simp only [Option.some.injEq] at h
      subst h
      have h1 : (skipWs r9).length ≤ r9.length := dropWhileLenLe _ _
      have h2 : (skipWs r11).length ≤ r11.length := dropWhileLenLe _ _
      rw [heq] at h1
      simp only [List.length_cons] at h1 ⊢
      omega
    · exact absurd h (by simp)
  · simp only [Option.some.injEq] at h
    subst h
    exact Nat.le_refl _

/-- Final terminator step: optional extra `\s*` then one of `terms`. -/
def termCheck (extraWs : Bool) (terms : List Char) (r10 : Str) : Option Str :=
  match (if extraWs then skipWs r10 else r10) with
  | t :: rest => if terms.contains t then some rest else none
  | [] => none

/-- `termCheck` strictly consumes (at least the terminator). -/
theorem termCheck_length {extraWs : Bool} {terms : List Char} {r10 r : Str}
    (h : termCheck extraWs terms r10 = some r) : r.length < r10.length := by
  unfold termCheck at h
  have hle : (if extraWs then skipWs r10 else r10).length ≤ r10.length := by
    split
    · exact dropWhileLenLe _ _
    · exact Nat.le_refl _
  split at h
  · rename_i t rest heq
    split at h
    · simp only [Option.some.injEq] at h
      subst h
      rw [heq] at hle
      simp only [List.length_cons] at hle
      omega
    · exact absurd h (by simp)
  · exact absurd h (by simp)

/-- The tail after `)` : `\s*(?:const\s*)?[(?:override\s*)?][(?:=\s*0\s*)?][\s*]T`
where the bracketed chunks are controlled by the flags and `T` is one of
`terms`.  Returns the rest after the terminator. -/
def afterParen (ovr eqOpt extraWs : Bool) (terms : List Char) (r5 : Str) : Option Str :=
  (if eqOpt then eqZeroOpt (overrideOptSkip ovr (constOptSkip (skipWs r5)))
   else some (overrideOptSkip ovr (constOptSkip (skipWs r5)))).bind
    (termCheck extraWs terms)

/-- `afterParen` strictly consumes. -/
theorem afterParen_length {ovr eqOpt extraWs : Bool} {terms : List Char} {r5 r : Str}
    (h : afterParen ovr eqOpt extraWs terms r5 = some r) : r.length < r5.length := by
  unfold afterParen at h
  have c1 : (skipWs r5).length ≤ r5.length := dropWhileLenLe _ _
  have c2 := constOptSkip_length (skipWs r5)
  have c3 := overrideOptSkip_length ovr (constOptSkip (skipWs r5))
  cases he : (if eqOpt then eqZeroOpt (overrideOptSkip ovr (constOptSkip (skipWs r5)))
      else some (overrideOptSkip ovr (constOptSkip (skipWs r5)))) with
  | none => rw [he] at h; exact absurd h (by simp)
  | some r10 =>
    rw [he] at h
    replace h : termCheck extraWs terms r10 = some r := h
    have c4 : r10.length ≤ (overrideOptSkip ovr (constOptSkip (skipWs r5))).length := by
      split at he
      · exact eqZeroOpt_length he
      · simp only [Option.some.injEq] at he; subst he; exact Nat.le_refl _
    have c5 := termCheck_length h
    omega

/-- Composite tail matcher from just after the method-name run:
`\s*\([^)]*\)` followed by `afterParen`. -/
def tailCore (ovr eqOpt extraWs : Bool) (terms : List Char) (l : Str) : Option Str :=
  (parenPart l).bind (afterParen ovr eqOpt extraWs terms)

/-- `tailCore` strictly consumes. -/
theorem tailCore_length {ovr eqOpt extraWs : Bool} {terms : List Char} {l r : Str}
    (h : tailCore ovr eqOpt extraWs terms l = some r) : r.length + 3 ≤ l.length := by
  unfold tailCore at h
  cases hp : parenPart l with
  | none => rw [hp] at h; exact absurd h (by simp)
  | some r5 =>
    rw [hp] at h
    replace h : afterParen ovr eqOpt extraWs terms r5 = some r := h
    have h1 := parenPart_length hp
    have h2 := afterParen_length h
    omega

/-- Attempt of the simple method pattern at the current position (the
position must start with a word character, which forces the greedy `\w+`
group); returns (group 1, rest after the terminator). -/
def methodAttemptR (hasOverride : Bool) (l : Str) : Option (Str × Str) :=
  if wordRun l = [] then none
  else (tailCore hasOverride true false [';', lbrace] (wordRest l)).map
    (fun rest => (wordRun l, rest))

/-- `methodAttemptR` strictly consumes. -/
theorem methodAttemptR_length {hasOverride : Bool} {l : Str} {w r : Str}
    (h : methodAttemptR hasOverride l = some (w, r)) : r.length < l.length := by
  unfold methodAttemptR at h
  split at h
  · exact absurd h (by simp)
  · cases ht : tailCore hasOverride true false [';', lbrace] (wordRest l) with
    | none => rw [ht] at h; exact absurd h (by simp)
    | some rest =>
      rw [ht] at h
      replace h : (wordRun l, rest) = (w, r) := Option.some.inj h
      obtain ⟨-, h2⟩ := Prod.mk.injEq .. ▸ h
      subst h2
      have h1 := tailCore_length ht
      have h3 : (wordRest l).length ≤ l.length := dropWhileLenLe _ _
      omega

/-- `re.search` of the simple method pattern (with `\b` and `override`,
as in `add_shell_nodes.extract_public_methods`); returns group 1. -/
def searchMethodName (hasOverride : Bool) (prevWord : Bool) : Str → Option Str
  | [] => none
  | c :: rest =>
    if !prevWord && isPyWord c then
      match methodAttemptR hasOverride (c :: rest) with
      | some (w, _) => some w
      | none => searchMethodName hasOverride (isPyWord c) rest
    else searchMethodName hasOverride (isPyWord c) rest

/-- `re.finditer` of the simple method pattern: all non-overlapping matches
left to right, continuing after each match end (`useB` controls the
leading `\b`, present in the class patterns, absent in the struct-member
pattern). -/
def findAllSimple (useB hasOverride : Bool) (prevWord : Bool) : Str → List Str
  | [] => []
  | c :: rest =>
    if (!useB || !prevWord) && isPyWord c then
      match hm : methodAttemptR hasOverride (c :: rest) with
      | some (w, r) => w :: findAllSimple useB hasOverride false r
      | none => findAllSimple useB hasOverride (isPyWord c) rest
    else findAllSimple useB hasOverride (isPyWord c) rest
termination_by l => l.length
decreasing_by
  · have := methodAttemptR_length hm
    simpa using this
  · simp only [List.length_cons]; omega
  · simp only [List.length_cons]; omega

/-- Matches the optional template part `(?:\s*<\s*[^>]+\s*>)?` of a
`std::` return type: acceptance requires at least one character between
`<` and the first following `>`. -/
def tmplStep (r1 : Str) : Option Str :=
  match skipWs r1 with
  | '<' :: r2 =>
    if r2.takeWhile (fun d => d != '>') = [] then none
    else
      match r2.dropWhile (fun d => d != '>') with
      | '>' :: r3 => some r3
      | _ => none
  | _ => none

/-- `tmplStep` never grows its input. -/
theorem tmplStep_length {r1 r : Str} (h : tmplStep r1 = some r) :
    r.length ≤ r1.length := by
  unfold tmplStep at h
  have h1 : (skipWs r1).length ≤ r1.length := dropWhileLenLe _ _
  split at h
  · rename_i r2 heq
    split at h
    · exact absurd h (by simp)
    · split at h
      · rename_i r3 heq2
        simp only [Option.some.injEq] at h
        subst h
        have h2 : (r2.dropWhile (fun d => d != '>')).length ≤ r2.length := dropWhileLenLe _ _
        rw [heq2] at h2
        rw [heq] at h1
        simp only [List.length_cons] at h1 h2
        omega
      · exact absurd h (by simp)
  · exact absurd h (by simp)

/-- Continuation `\s+(\w+)\s*\([^)]*\)\s*(?:const\s*)?(?:override\s*)?(?:=\s*0\s*)?[;{]`
after a matched return type; returns (group 2, rest after terminator). -/
def typedCont (r : Str) : Option (Str × Str) :=
  if r.takeWhile isPySpace = [] then none
  else if wordRun (skipWs r) = [] then none
  else (tailCore true true false [';', lbrace] (wordRest (skipWs r))).map
    (fun rest => (wordRun (skipWs r), rest))

/-- `typedCont` strictly consumes. -/
theorem typedCont_length {r : Str} {w rest : Str}
    (h : typedCont r = some (w, rest)) : rest.length < r.length := by
  unfold typedCont at h
  split at h
  · exact absurd h (by simp)
  · split at h
    · exact absurd h (by simp)
    · cases ht : tailCore true true false [';', lbrace] (wordRest (skipWs r)) with
      | none => rw [ht] at h; exact absurd h (by simp)
      | some r2 =>
        rw [ht] at h
        replace h : (wordRun (skipWs r), r2) = (w, rest) := Option.some.inj h
        obtain ⟨-, h2⟩ := Prod.mk.injEq .. ▸ h
        subst h2
        have h1 := tailCore_length ht
        have h3 : (wordRest (skipWs r)).length ≤ (skipWs r).length := dropWhileLenLe _ _
        have h4 : (skipWs r).length ≤ r.length := dropWhileLenLe _ _
        omega

/-- Attempt of the typed method pattern
`\b(bool|void|int|float|std::\w+(?:\s*<\s*[^>]+\s*>)?)\s+(\w+)\s*\([^)]*\)\s*(?:const\s*)?(?:override\s*)?(?:=\s*0\s*)?[;{]`
(pattern 1 of `update_all_nodes.extract_all_public_methods`), at the
current position.  The five alternatives start with distinct letters, so
at most one applies; inside the `std::` alternative the template part is
tried greedily first, then skipped. -/
def typedAttempt (l : Str) : Option (Str × Str) :=
  if (tl "bool").isPrefixOf l then typedCont (l.drop 4)
  else if (tl "void").isPrefixOf l then typedCont (l.drop 4)
  else if (tl "int").isPrefixOf l then typedCont (l.drop 3)
  else if (tl "float").isPrefixOf l then typedCont (l.drop 5)
  else if (tl "std::").isPrefixOf l then
    if wordRun (l.drop 5) = [] then none
    else
      match tmplStep (wordRest (l.drop 5)) with
      | some r2 => (typedCont r2).orElse (fun _ => typedCont (wordRest (l.drop 5)))
      | none => typedCont (wordRest (l.drop 5))
  else none

/-- `typedAttempt` strictly consumes. -/
theorem typedAttempt_length {l : Str} {w rest : Str}
    (h : typedAttempt l = some (w, rest)) : rest.length < l.length := by
  have base : ∀ k, typedCont (l.drop k) = some (w, rest) →
      rest.length < l.length := by
    intro k hc
    have := typedCont_length hc
    simp only [List.length_drop] at this
    omega
  unfold typedAttempt at h
  split at h
  · exact base 4 h
  · split at h
    · exact base 4 h
    · split at h
      · exact base 3 h
      · split at h
        · exact base 5 h
        · split at h
          · have hwr : (wordRest (l.drop 5)).length ≤ l.length := by
              calc (wordRest (l.drop 5)).length ≤ (l.drop 5).length := dropWhileLenLe _ _
                _ ≤ l.length := by simp only [List.length_drop]; omega
            split at h
            · exact absurd h (by simp)
            · split at h
              · rename_i r2 heq
                cases h1 : typedCont r2 with
                | some p =>
                  rw [h1] at h
                  obtain ⟨w2, rest2⟩ := p
                  replace h : (w2, rest2) = (w, rest) := Option.some.inj (by simpa using h)
                  obtain ⟨-, h2⟩ := Prod.mk.injEq .. ▸ h
                  subst h2
                  have := typedCont_length h1
                  have := tmplStep_length heq
                  omega
                | none =>
                  rw [h1] at h
                  replace h : typedCont (wordRest (l.drop 5)) = some (w, rest) := by
                    simpa using h
                  have := typedCont_length h
                  omega
              · have := typedCont_length h
                omega
          · exact absurd h (by simp)

/-- `re.finditer` of the typed method pattern: all non-overlapping matches,
group 2 each, continuing after each match end. -/
def findAllTyped (prevWord : Bool) : Str → List Str
  | [] => []
  | c :: rest =>
    if !prevWord then
      match hm : typedAttempt (c :: rest) with
      | some (w, r) => w :: findAllTyped false r
      | none => findAllTyped (isPyWord c) rest
    else findAllTyped (isPyWord c) rest
termination_by l => l.length
decreasing_by
  · have := typedAttempt_length hm
    simpa using this
  · simp only [List.length_cons]; omega
  · simp only [List.length_cons]; omega

/-! ### Class-body and struct-body slicing (`update_all_nodes.py`) -/

/-- Attempt of `\s+(\w+)\s*\{` after a matched `class` literal. -/
def classBraceAttempt (r : Str) : Option (Str × Str) :=
  if r.takeWhile isPySpace = [] then none
  else if wordRun (skipWs r) = [] then none
  else
    match skipWs (wordRest (skipWs r)) with
    | b :: r3 => if b = lbrace then some (wordRun (skipWs r), r3) else none
    | [] => none

/-- `re.search(r'\bclass\s+(\w+)\s*\{', ...)`: returns (group 1, rest after
the opening brace). -/
def searchClassBrace (prevWord : Bool) : Str → Option (Str × Str)
  | [] => none
  | c :: rest =>
    if !prevWord && (tl "class").isPrefixOf (c :: rest) then
      match classBraceAttempt ((c :: rest).drop 5) with
      | some p => some p
      | none => searchClassBrace (isPyWord c) rest
    else searchClassBrace (isPyWord c) rest

/-- The brace-counting loop of `extract_all_public_methods` and
`extract_struct_members`:
`while i < len(content) and brace_count > 0: ...; i += 1`, starting from
count `k`; returns the number of characters consumed. -/
def braceScan1 : Str → Nat → Nat
  | [], _ => 0
  | c :: rest, k =>
    if (if c = lbrace then k + 1 else if c = rbrace then k - 1 else k) = 0 then 1
    else 1 + braceScan1 rest (if c = lbrace then k + 1 else if c = rbrace then k - 1 else k)

/-- The slice `content[start:i-1]` taken by both body extractors, where the
scan starts at count 1 (for the struct extractor the count starts at 1
even though no `{` has been consumed yet, exactly as in the source). -/
def bodySlice (l : Str) : Str := l.take (braceScan1 l 1 - 1)

/-- Prefix of `l` up to the start of the first `\b(private|protected)\s*:`
match (the boundary is relative to the sliced string, so position 0
counts as a boundary, as in the source's search over `class_body[start:]`). -/
def takeUntilPP (prevWord : Bool) : Str → Str
  | [] => []
  | c :: rest =>
    if !prevWord &&
        (((tl "private").isPrefixOf (c :: rest) &&
          (skipWs ((c :: rest).drop 7)).head? = some ':') ||
         ((tl "protected").isPrefixOf (c :: rest) &&
          (skipWs ((c :: rest).drop 9)).head? = some ':'))
    then []
    else c :: takeUntilPP (isPyWord c) rest

/-- All `public:` sections of a class body: for each match of
`\bpublic\s*:` (found left to right, non-overlapping), the slice from the
match end up to the next `\b(private|protected)\s*:` match (or the end). -/
def publicSections (prevWord : Bool) : Str → List Str
  | [] => []
  | c :: rest =>
    if !prevWord && (tl "public").isPrefixOf (c :: rest) then
      match hm : skipWs ((c :: rest).drop 6) with
      | ':' :: afterColon => takeUntilPP false afterColon :: publicSections false afterColon
      | _ => publicSections (isPyWord c) rest
    else publicSections (isPyWord c) rest
termination_by l => l.length
decreasing_by
  · have h1 : (skipWs ((c :: rest).drop 6)).length ≤ ((c :: rest).drop 6).length :=
      dropWhileLenLe _ _
    rw [hm] at h1
    simp only [List.length_cons, List.length_drop] at h1 ⊢
    omega
  · simp only [List.length_cons]; omega
  · simp only [List.length_cons]; omega

/-- Attempt of `\s+NAME\b` after a matched `class`/`struct` literal;
returns the rest starting right after `NAME` (the `\b` is zero-width). -/
def nameBoundAttempt (sname : Str) (r : Str) : Option Str :=
  if r.takeWhile isPySpace = [] then none
  else if sname.isPrefixOf (skipWs r) then
    match ((skipWs r).drop sname.length).head? with
    | some d => if isPyWord d then none else some ((skipWs r).drop sname.length)
    | none => some ((skipWs r).drop sname.length)
  else none

/-- `re.search(rf'\bstruct\s+NAME\b', ...)` of `extract_struct_members`;
returns the rest of the content from the match end. -/
def searchStructEnd (sname : Str) (prevWord : Bool) : Str → Option Str
  | [] => none
  | c :: rest =>
    if !prevWord && (tl "struct").isPrefixOf (c :: rest) then
      match nameBoundAttempt sname ((c :: rest).drop 6) with
      | some r => some r
      | none => searchStructEnd sname (isPyWord c) rest
    else searchStructEnd sname (isPyWord c) rest

/-- Does `(class|struct)\s+NAME\b` match at this position? -/
def classStructHere (sname : Str) (l : Str) : Bool :=
  ((tl "class").isPrefixOf l && (nameBoundAttempt sname (l.drop 5)).isSome) ||
  ((tl "struct").isPrefixOf l && (nameBoundAttempt sname (l.drop 6)).isSome)

/-- Position (index) of the first match of `\b(class|struct)\s+NAME\b`
(`needB = true`) or `(struct|class)\s+NAME\b` (`needB = false`), as used
by `extract_class_description`. -/
def classStructPosAux (needB : Bool) (sname : Str) (prevWord : Bool) (idx : Nat) :
    Str → Option Nat
  | [] => none
  | c :: rest =>
    if (!needB || !prevWord) && classStructHere sname (c :: rest) then some idx
    else classStructPosAux needB sname (isPyWord c) (idx + 1) rest

/-- The two-stage class/struct position search of
`extract_class_description`: the bounded pattern first, then the unbounded
one. -/
def posOfClassStruct (content sname : Str) : Option Nat :=
  (classStructPosAux true sname false 0 content).orElse
    (fun _ => classStructPosAux false sname false 0 content)

/-- `re.finditer(r'/\*\*\s*(.*?)\s*\*/', before, re.DOTALL)`: each block
runs from a `/**` to the first following `*/` and the group is the
enclosed text with surrounding whitespace stripped (the leading greedy
`\s*`, the lazy `(.*?)` and the trailing `\s*`). -/
def docBlocks (s : Str) : List Str :=
  match h1 : splitSub '/' (tl "**") s with
  | none => []
  | some (_, rest) =>
    match h2 : splitSub '*' ['/'] rest with
    | none => []
    | some (seg, after) => pyStrip seg :: docBlocks after
termination_by s.length
decreasing_by
  have l1 := splitSub_length h1
  have l2 := splitSub_length h2
  simp only [tl, List.length_cons] at l1 l2
  omega

/-! ### The six method patterns of `update_node_titles.extract_public_methods`

For each line the source tries, in order,
`P1 = (\w+(?:\s*::\s*\w+)*(?:\s*[*&<>,\s])*)\s+(\w+)\s*\([^)]*\)\s*(?:const\s*)?(?:=\s*0\s*)?;`,
`P2` (same but ending `\)\s*(?:const\s*)?\s*\{`),
`P3 = (std::\w+(?:\s*<\s*[^>]+\s*>)?(?:\s*[*&])?)\s+(\w+)...;`, `P4` (its
`{` variant), `P5 = (void)\s+(\w+)...;`, `P6` (its `{` variant), and
takes group 2 of the first pattern that matches.  The group-1 quantifiers
backtrack; the stop positions of each starred chunk are enumerated
greedily (deepest first), with the rightmost chunk varying fastest, which
is the engine's depth-first order. -/

/-- Tail of P1/P3/P5: `\s*\([^)]*\)\s*(?:const\s*)?(?:=\s*0\s*)?;`. -/
def tailSemi (l : Str) : Option Str := tailCore false true false [';'] l

/-- Tail of P2/P4/P6: `\s*\([^)]*\)\s*(?:const\s*)?\s*\{`. -/
def tailBrace (l : Str) : Option Str := tailCore false false true [lbrace] l

/-- The `\s+(\w+)` part followed by the chosen tail; returns group 2. -/
def nameThenTail (tailv : Str → Option Str) (r : Str) : Option Str :=
  if r.takeWhile isPySpace = [] then none
  else if wordRun (skipWs r) = [] then none
  else (tailv (wordRest (skipWs r))).map (fun _ => wordRun (skipWs r))

/-- One iteration of `(?:\s*::\s*\w+)*`. -/
def star1Step (r : Str) : Option Str :=
  if (tl "::").isPrefixOf (skipWs r) then
    if wordRun (skipWs ((skipWs r).drop 2)) = [] then none
    else some (wordRest (skipWs ((skipWs r).drop 2)))
  else none

/-- `star1Step` strictly consumes (at least the `::` and one word char). -/
theorem star1Step_length {r r2 : Str} (h : star1Step r = some r2) :
    r2.length < r.length := by
  unfold star1Step at h
  split at h
  · rename_i hp
    split at h
    · exact absurd h (by simp)
    · rename_i hw
      simp only [Option.some.injEq] at h
      subst h
      have h1 : (skipWs r).length ≤ r.length := dropWhileLenLe _ _
      have h2 : 2 ≤ (skipWs r).length := by
        have := List.IsPrefix.length_le (List.isPrefixOf_iff_prefix.mp hp)
        simpa [tl] using this
      have h3 : (skipWs ((skipWs r).drop 2)).length ≤ ((skipWs r).drop 2).length :=
        dropWhileLenLe _ _
      have h5 : (wordRest (skipWs ((skipWs r).drop 2))).length
          ≤ (skipWs ((skipWs r).drop 2)).length := dropWhileLenLe _ _
      simp only [List.length_drop] at h3
      omega
  · exact absurd h (by simp)

/-- Characters of the class `[*&<>,\s]` (which contains all whitespace). -/
def isP1Cls (c : Char) : Bool :=
  c = '*' || c = '&' || c = '<' || c = '>' || c = ',' || isPySpace c

/-- Stop positions of `(?:\s*[*&<>,\s])*`: the chunk can end after any
prefix of the maximal run of class characters; they are tried deepest
first, `n` counting the characters still consumed. -/
def star2Go (tailv : Str → Option Str) (r : Str) : Nat → Option Str
  | 0 => nameThenTail tailv r
  | n + 1 => (nameThenTail tailv (r.drop (n + 1))).orElse (fun _ => star2Go tailv r n)

/-- Greedy enumeration of `(?:\s*[*&<>,\s])*` followed by the rest of the
pattern. -/
def star2Phase (tailv : Str → Option Str) (r : Str) : Option Str :=
  star2Go tailv r ((r.takeWhile isP1Cls).length)

/-- Worker for `star1Phase` (fuel-structural; each `star1Step` consumes at
least two characters, so `r.length` fuel suffices; at fuel 0 the input is
empty and `star1Step` necessarily fails). -/
def star1PhaseGo (tailv : Str → Option Str) : Nat → Str → Option Str
  | 0, r => star2Phase tailv r
  | fuel + 1, r =>
    match star1Step r with
    | some r2 => (star1PhaseGo tailv fuel r2).orElse (fun _ => star2Phase tailv r)
    | none => star2Phase tailv r

/-- Greedy enumeration of `(?:\s*::\s*\w+)*` (deepest first), then the
`star2Phase`. -/
def star1Phase (tailv : Str → Option Str) (r : Str) : Option Str :=
  star1PhaseGo tailv r.length r

/-- Greedy enumeration of the leading `(\w+)` of P1/P2 (longest run first,
at least one character). -/
def p1Lens (tailv : Str → Option Str) (l : Str) : Nat → Option Str
  | 0 => none
  | n + 1 => (star1Phase tailv (l.drop (n + 1))).orElse (fun _ => p1Lens tailv l n)

/-- Attempt of P1/P2 at the current position. -/
def p1AtPos (tailv : Str → Option Str) (l : Str) : Option Str :=
  p1Lens tailv l ((l.takeWhile isPyWord).length)

/-- `re.search` of P1/P2 (no `\b`: every position is tried). -/
def searchP12 (tailv : Str → Option Str) : Str → Option Str
  | [] => none
  | c :: rest =>
    match p1AtPos tailv (c :: rest) with
    | some w => some w
    | none => searchP12 tailv rest

/-- Matches the optional pointer part `(?:\s*[*&])?` of P3/P4. -/
def ptrStep (r : Str) : Option Str :=
  match skipWs r with
  | c :: rest => if c = '*' || c = '&' then some rest else none
  | [] => none

/-- Pointer option `(?:\s*[*&])?` (taken first) then the `\s+(\w+)`
continuation of P3/P4. -/
def stdPtrPhase (tailv : Str → Option Str) (r : Str) : Option Str :=
  match ptrStep r with
  | some r2 => (nameThenTail tailv r2).orElse (fun _ => nameThenTail tailv r)
  | none => nameThenTail tailv r

/-- Attempt of P3/P4 at the current position (a literal `std::`, a greedy
`\w+`, optional template and pointer parts each tried taken-first). -/
def stdAtPos (tailv : Str → Option Str) (l : Str) : Option Str :=
  if (tl "std::").isPrefixOf l then
    if wordRun (l.drop 5) = [] then none
    else
      match tmplStep (wordRest (l.drop 5)) with
      | some r2 => (stdPtrPhase tailv r2).orElse (fun _ => stdPtrPhase tailv (wordRest (l.drop 5)))
      | none => stdPtrPhase tailv (wordRest (l.drop 5))
  else none

/-- `re.search` of P3/P4. -/
def searchP34 (tailv : Str → Option Str) : Str → Option Str
  | [] => none
  | c :: rest =>
    match stdAtPos tailv (c :: rest) with
    | some w => some w
    | none => searchP34 tailv rest

/-- Attempt of P5/P6 at the current position (a literal `void`). -/
def voidAtPos (tailv : Str → Option Str) (l : Str) : Option Str :=
  if (tl "void").isPrefixOf l then nameThenTail tailv (l.drop 4) else none

/-- `re.search` of P5/P6. -/
def searchP56 (tailv : Str → Option Str) : Str → Option Str
  | [] => none
  | c :: rest =>
    match voidAtPos tailv (c :: rest) with
    | some w => some w
    | none => searchP56 tailv rest

/-- The per-line extraction of `update_node_titles.extract_public_methods`:
group 2 of the first of P1..P6 that matches. -/
def extractLineUNT (line : Str) : Option Str :=
  (searchP12 tailSemi line).orElse (fun _ =>
  (searchP12 tailBrace line).orElse (fun _ =>
  (searchP34 tailSemi line).orElse (fun _ =>
  (searchP34 tailBrace line).orElse (fun _ =>
  (searchP56 tailSemi line).orElse (fun _ =>
  searchP56 tailBrace line)))))

/-! ### Canvas data model and file system

A canvas document (section 6 of the external JSON schema) is an ordered
list of nodes plus a list of edges and an optional metadata object (only
its presence matters to the scripts, its version string is carried
along).  The file system maps a path to `none` (missing), `some none`
(present but unreadable, the `except Exception` branches) or
`some (some content)`. -/

/-- A canvas node. -/
structure CNode where
  id : Str
  ntype : Str
  text : Str
  x : Int
  y : Int
  width : Int
  height : Int
  color : Option Str
  styleAttrs : Bool
deriving DecidableEq

/-- A canvas edge. -/
structure CEdge where
  id : Str
  fromNode : Str
  fromSide : Str
  toNode : Str
  toSide : Str
  color : Option Str
deriving DecidableEq

/-- A canvas document. -/
structure Canvas where
  nodes : List CNode
  edges : List CEdge
  metadata : Option Str
deriving DecidableEq

/-- The file system model. -/
def FS : Type := Str → Option (Option Str)

/-- Content of a file if it exists and is readable. -/
def readContent (fs : FS) (p : Str) : Option Str :=
  match fs p with
  | some (some c) => some c
  | _ => none

/-! ### The per-line brace-depth scanner

`add_shell_nodes.extract_public_methods`,
`update_node_titles.extract_public_methods` and
`update_node_titles.extract_all_public_methods` share the same control
flow over the lines of the comment-stripped header; they differ only in
the per-line extraction regex and the filters applied to an extracted
name. -/

/-- `line.count('{') - line.count('}')`. -/
def braceDelta (line : Str) : Int :=
  (line.count lbrace : Int) - (line.count rbrace : Int)

/-- State of the brace-depth scanner. -/
structure ScanSt where
  inClass : Bool
  inPub : Bool
  depth : Int
  acc : List Str
deriving DecidableEq

/-- One line of the brace-depth scanner, for a per-line extraction
function `extract` and an accumulator-dependent filter `keep`. -/
def scanStep (extract : Str → Option Str) (keep : List Str → Str → Bool)
    (s : ScanSt) (line : Str) : ScanSt :=
  if isClassStartLine line then ⟨true, false, braceDelta line, s.acc⟩
  else if !s.inClass then s
  else if s.depth + braceDelta line ≤ 0 then
    ⟨false, s.inPub, s.depth + braceDelta line, s.acc⟩
  else if isPublicLine line then ⟨true, true, s.depth + braceDelta line, s.acc⟩
  else if isPrivProtLine line then ⟨true, false, s.depth + braceDelta line, s.acc⟩
  else if s.inPub then
    match extract line with
    | some m =>
      if keep s.acc m then ⟨true, true, s.depth + braceDelta line, s.acc ++ [m]⟩
      else ⟨true, true, s.depth + braceDelta line, s.acc⟩
    | none => ⟨true, true, s.depth + braceDelta line, s.acc⟩
  else ⟨true, false, s.depth + braceDelta line, s.acc⟩

/-- Run the scanner over the lines of a preprocessed header. -/
def scanLines (extract : Str → Option Str) (keep : List Str → Str → Bool)
    (lines : List Str) : List Str :=
  (lines.foldl (scanStep extract keep) ⟨false, false, 0, []⟩).acc

/-! ### Shared method tables of `update_all_nodes.py` / `update_node_titles.py`
(the two files contain identical copies of `EXCLUDE_METHODS` and
`INTERACTION_KEYWORDS`). -/

/-- The `EXCLUDE_METHODS` set. -/
def EXCLUDE_METHODS : List Str :=
  [tl "getType", tl "getName", tl "getInstanceName", tl "setInstanceName",
   tl "toJson", tl "fromJson", tl "serialize", tl "deserialize",
   tl "setup", tl "update", tl "draw", tl "audioOut", tl "videoOut",
   tl "getWidth", tl "getHeight", tl "setWidth", tl "setHeight",
   tl "getX", tl "getY", tl "setX", tl "setY", tl "getPosition", tl "setPosition",
   tl "getColor", tl "setColor", tl "isVisible", tl "setVisible",
   tl "getParent", tl "setParent", tl "getChildren", tl "addChild", tl "removeChild"]

/-- The `INTERACTION_KEYWORDS` set (used by
`update_node_titles.extract_public_methods`; membership tests only, so
the set is modelled as a list). -/
def INTERACTION_KEYWORDS : List Str :=
  [tl "get", tl "set", tl "connect", tl "disconnect", tl "register",
   tl "add", tl "remove", tl "create", tl "execute", tl "load", tl "save",
   tl "subscribe", tl "unsubscribe", tl "route", tl "process", tl "update",
   tl "notify", tl "find", tl "query"]

/-! ### Header extraction functions of the three scanner-based extractors -/

/-- Comment stripping of `add_shell_nodes.extract_public_methods` (no
string-literal stripping in this file). -/
def preprocessAS (content : Str) : Str := stripBlockComments (stripLineComments content)

/-- Comment and string stripping of the two `update_node_titles` /
`update_all_nodes` extractors. -/
def preprocessStr (content : Str) : Str :=
  stripSq (stripDq (stripBlockComments (stripLineComments content)))

/-- Per-line extraction of `add_shell_nodes.extract_public_methods`. -/
def extractLineAS (line : Str) : Option Str := searchMethodName true false line

/-- Name filter of `add_shell_nodes.extract_public_methods`:
`method_name not in ['~', 'operator']` plus deduplication. -/
def keepAS (acc : List Str) (m : Str) : Bool :=
  !([tl "~", tl "operator"].contains m) && !(acc.contains m)

/-- Content-level `add_shell_nodes.extract_public_methods`. -/
def scanPublicAS (content : Str) : List Str :=
  scanLines extractLineAS keepAS (splitNl (preprocessAS content))

/-- `add_shell_nodes.extract_public_methods` (missing or unreadable
headers yield `[]`). -/
def extract_public_methods_AS (fs : FS) (p : Str) : List Str :=
  match readContent fs p with
  | none => []
  | some c => scanPublicAS c

/-- Name filter of `update_node_titles.extract_public_methods`:
not `~`/`operator`/`ConnectionManager`, an interaction keyword occurs in
the lowered name, not excluded, not yet collected. -/
def keepUNT (acc : List Str) (m : Str) : Bool :=
  !([tl "~", tl "operator", tl "ConnectionManager"].contains m) &&
  anyKwIn INTERACTION_KEYWORDS (toLowerStr m) &&
  !(EXCLUDE_METHODS.contains m) && !(acc.contains m)

/-- Content-level `update_node_titles.extract_public_methods`. -/
def scanPublicUNT (content : Str) : List Str :=
  scanLines extractLineUNT keepUNT (splitNl (preprocessStr content))

/-- `update_node_titles.extract_public_methods`. -/
def extract_public_methods_UNT (fs : FS) (p : Str) : List Str :=
  match readContent fs p with
  | none => []
  | some c => scanPublicUNT c

/-- State of the `update_node_titles.extract_all_public_methods` scanner:
the plain scanner state plus the already-processed lines (newest first)
for the constructor look-back. -/
structure ScanAllSt where
  inClass : Bool
  inPub : Bool
  depth : Int
  acc : List Str
  prevRev : List Str
deriving DecidableEq

/-- Constructor test of `update_node_titles.extract_all_public_methods`:
scan the current and previous lines (newest first) for
`\bclass\s+(\w+)` and compare the first hit with the method name. -/
def lookbackIsCtor (m : Str) (linesRev : List Str) : Bool :=
  linesRev.findSome? (searchClassNameLine false) == some m

/-- One line of `update_node_titles.extract_all_public_methods` (the
method pattern here has no `override` part). -/
def scanAllStepUNT (s : ScanAllSt) (line : Str) : ScanAllSt :=
  if isClassStartLine line then ⟨true, false, braceDelta line, s.acc, line :: s.prevRev⟩
  else if !s.inClass then { s with prevRev := line :: s.prevRev }
  else if s.depth + braceDelta line ≤ 0 then
    ⟨false, s.inPub, s.depth + braceDelta line, s.acc, line :: s.prevRev⟩
  else if isPublicLine line then
    ⟨true, true, s.depth + braceDelta line, s.acc, line :: s.prevRev⟩
  else if isPrivProtLine line then
    ⟨true, false, s.depth + braceDelta line, s.acc, line :: s.prevRev⟩
  else if s.inPub then
    match searchMethodName false false line with
    | some m =>
      if !([tl "~", tl "operator"].contains m) && !(EXCLUDE_METHODS.contains m) &&
          !(lookbackIsCtor m (line :: s.prevRev)) && !(s.acc.contains m) then
        ⟨true, true, s.depth + braceDelta line, s.acc ++ [m], line :: s.prevRev⟩
      else ⟨true, true, s.depth + braceDelta line, s.acc, line :: s.prevRev⟩
    | none => ⟨true, true, s.depth + braceDelta line, s.acc, line :: s.prevRev⟩
  else ⟨true, false, s.depth + braceDelta line, s.acc, line :: s.prevRev⟩

/-- Content-level `update_node_titles.extract_all_public_methods`. -/
def scanAllUNT (content : Str) : List Str :=
  ((splitNl (preprocessStr content)).foldl scanAllStepUNT ⟨false, false, 0, [], []⟩).acc

/-- `update_node_titles.extract_all_public_methods`. -/
def extract_all_public_methods_UNT (fs : FS) (p : Str) : List Str :=
  match readContent fs p with
  | none => []
  | some c => scanAllUNT c

/-- Filter for pattern 1 (typed) matches of
`update_all_nodes.extract_all_public_methods`. -/
def keepTypedUA (cname : Str) (a : List Str) (m : Str) : Bool :=
  !([tl "~", tl "operator"].contains m) && !(EXCLUDE_METHODS.contains m) &&
  !(m == cname) && !(a.contains m)

/-- Filter for pattern 2 (direct) matches of
`update_all_nodes.extract_all_public_methods`. -/
def keepDirectUA (cname : Str) (a : List Str) (m : Str) : Bool :=
  !(a.contains m) &&
  !(([tl "~", tl "operator", tl "bool", tl "void", tl "int", tl "float",
      tl "string", tl "std", cname]).contains m) &&
  !(EXCLUDE_METHODS.contains m)

/-- Content-level `update_all_nodes.extract_all_public_methods`: slice the
first `\bclass\s+(\w+)\s*\{` body, then for each `public:` section collect
pattern-1 then pattern-2 matches. -/
def scanAllUA (content : Str) : List Str :=
  match searchClassBrace false (preprocessStr content) with
  | none => []
  | some (cname, rest) =>
    (publicSections false (bodySlice rest)).foldl (fun acc sec =>
      (findAllSimple true true false sec).foldl
        (fun a m => if keepDirectUA cname a m then a ++ [m] else a)
        ((findAllTyped false sec).foldl
          (fun a m => if keepTypedUA cname a m then a ++ [m] else a) acc)) []

/-- `update_all_nodes.extract_all_public_methods`. -/
def extract_all_public_methods_UA (fs : FS) (p : Str) : List Str :=
  match readContent fs p with
  | none => []
  | some c => scanAllUA c

/-- Content-level `extract_struct_members` (identical in
`update_all_nodes.py` and `update_node_titles.py`; works on the raw
content, no comment stripping). -/
def scanStructMembers (content sname : Str) : List Str :=
  match searchStructEnd sname false content with
  | none => []
  | some rest =>
    (findAllSimple false false false (bodySlice rest)).foldl
      (fun a m =>
        if !([tl "~", tl "operator"].contains m) && !(EXCLUDE_METHODS.contains m) &&
            !(a.contains m)
        then a ++ [m] else a) []

/-- `extract_struct_members`. -/
def extract_struct_members (fs : FS) (p : Str) (sname : Str) : List Str :=
  match readContent fs p with
  | none => []
  | some c => scanStructMembers c sname

/-! ### Fallback descriptions -/

/-- The `fallbacks` table of `update_all_nodes.get_fallback_description`. -/
def fallbacksUA : List (Str × Str) :=
  [(tl "EngineState", tl "Immutable snapshot of engine state for rendering"),
   (tl "Engine", tl "Central headless core managing modules and execution"),
   (tl "ConnectionManager", tl "Unified connection management for audio/video/parameters"),
   (tl "ModuleRegistry", tl "Centralized storage and lookup for module instances"),
   (tl "ModuleFactory", tl "Factory for creating module instances"),
   (tl "ParameterRouter", tl "Routes parameter changes between modules"),
   (tl "SessionManager", tl "Manages saving and loading application sessions"),
   (tl "ProjectManager", tl "Manages project files and assets"),
   (tl "PatternRuntime", tl "Runtime system for pattern evaluation"),
   (tl "ScriptManager", tl "Generates and manages Lua scripts from state"),
   (tl "Clock", tl "Central timing system for audio/video synchronization"),
   (tl "CommandExecutor", tl "Executes commands with undo/redo support"),
   (tl "AudioRouter", tl "Routes audio signals between modules"),
   (tl "VideoRouter", tl "Routes video signals between modules"),
   (tl "EventRouter", tl "Manages event subscriptions between modules"),
   (tl "AssetLibrary", tl "Manages media assets and references"),
   (tl "MediaConverter", tl "Converts between media formats"),
   (tl "InputRouter", tl "Routes input events to modules"),
   (tl "ExpressionParser", tl "Parses mathematical expressions"),
   (tl "Oscilloscope", tl "Audio visualization module displaying waveform oscilloscope"),
   (tl "Spectrogram", tl "Audio visualization module displaying frequency spectrum"),
   (tl "MediaPlayer", tl "Module for playing audio and video media files"),
   (tl "VoiceProcessor", tl "Processes individual voice instances in MultiSampler"),
   (tl "AudioOutput", tl "Master audio output module routing to system audio"),
   (tl "AudioMixer", tl "Mixes multiple audio signals into a single output"),
   (tl "TrackerSequencer", tl "Pattern-based step sequencer for triggering modules"),
   (tl "Sequencer", tl "Base class for sequencer modules"),
   (tl "MultiSampler", tl "Multi-voice sampler instrument with polyphonic playback"),
   (tl "VideoOutput", tl "Master video output module routing to display"),
   (tl "VideoMixer", tl "Mixes multiple video signals into a single output"),
   (tl "MenuBar", tl "Top menu bar with file operations and view controls"),
   (tl "ClockGUI", tl "GUI panel for Clock timing controls"),
   (tl "Console", tl "Command-line console interface for executing commands"),
   (tl "ViewManager", tl "Manages visibility and layout of GUI panels"),
   (tl "TrackerSequencerGUI", tl "GUI panel for TrackerSequencer module"),
   (tl "CommandBar", tl "Command palette interface for quick command access"),
   (tl "MultiSamplerGUI", tl "GUI panel for MultiSampler module"),
   (tl "ofApp", tl "Main application class inheriting from ofBaseApp"),
   (tl "Pattern", tl "Data structure representing a sequence pattern"),
   (tl "PatternChain", tl "Chain of patterns with repeat counts and enabled states"),
   (tl "VoiceManager", tl "Manages voice pool allocation and polyphony for MultiSampler"),
   (tl "ParameterDescriptor", tl "Metadata descriptor for module parameters"),
   (tl "Envelope", tl "ADSR envelope generator for audio synthesis"),
   (tl "TriggerEvent", tl "Event data for discrete step triggers with parameters"),
   (tl "Port", tl "Describes an input or output port on a module for routing"),
   (tl "SampleRef", tl "Contains shared audio data and video path for efficient memory usage"),
   (tl "Voice", tl "Represents an active playback instance in MultiSampler"),
   (tl "ofBaseApp", tl "Base class from openFrameworks framework (external dependency)"),
   (tl "Module", tl "Unified base class for all modules (sequencers, instruments, effects, utilities)"),
   (tl "Shell", tl "Base class for different UI interaction modes"),
   (tl "EditorShell", tl "Wraps existing ImGui-based editor interface with tiled windows"),
   (tl "CommandShell", tl "Custom-rendered terminal interface with REPL (Hydra/Strudel style)"),
   (tl "CodeShell", tl "Live-coding shell with code editor and REPL (Strudel/Tidal/Hydra style)"),
   (tl "CLIShell", tl "Batch CLI mode for non-interactive command execution")]

/-- `update_all_nodes.get_fallback_description`. -/
def get_fallback_description_UA (class_name : Str) : Str := lookupD fallbacksUA class_name

/-- The `fallbacks` table of `update_node_titles.get_fallback_description`. -/
def fallbacksUNT : List (Str × Str) :=
  [(tl "EngineState", tl "Immutable snapshot of engine state for rendering"),
   (tl "Engine", tl "Central headless core managing modules and execution"),
   (tl "ConnectionManager", tl "Unified connection management for audio/video/parameters"),
   (tl "ModuleRegistry", tl "Centralized storage and lookup for module instances"),
   (tl "ModuleFactory", tl "Factory for creating module instances"),
   (tl "ParameterRouter", tl "Routes parameter changes between modules"),
   (tl "SessionManager", tl "Manages saving and loading application sessions"),
   (tl "ProjectManager", tl "Manages project files and assets"),
   (tl "PatternRuntime", tl "Runtime system for pattern evaluation"),
   (tl "ScriptManager", tl "Generates and manages Lua scripts from state"),
   (tl "Clock", tl "Central timing system for audio/video synchronization"),
   (tl "CommandExecutor", tl "Executes commands with undo/redo support"),
   (tl "AudioRouter", tl "Routes audio signals between modules"),
   (tl "VideoRouter", tl "Routes video signals between modules"),
   (tl "EventRouter", tl "Manages event subscriptions between modules"),
   (tl "AssetLibrary", tl "Manages media assets and references"),
   (tl "MediaConverter", tl "Converts between media formats"),
   (tl "InputRouter", tl "Routes input events to modules"),
   (tl "ExpressionParser", tl "Parses mathematical expressions"),
   (tl "TriggerEvent", tl "Event data for discrete step triggers with parameters"),
   (tl "Port", tl "Describes an input or output port on a module for routing"),
   (tl "SampleRef", tl "Contains shared audio data and video path for efficient memory usage"),
   (tl "Voice", tl "Represents an active playback instance in MultiSampler"),
   (tl "ofBaseApp", tl "Base class from openFrameworks framework (external dependency)")]

/-- `update_node_titles.get_fallback_description`. -/
def get_fallback_description_UNT (class_name : Str) : Str := lookupD fallbacksUNT class_name

/-! ### Class-description extraction -/

/-- Python `s.split(sep, 1)[1]`: the part after the first occurrence. -/
def splitAfterFirst (n : Char) (ns : Str) (s : Str) : Str :=
  match splitSub n ns s with
  | some (_, after) => after
  | none => s

/-- `re.sub(r'\*\s*', '', desc)`: remove each `*` with any following
whitespace. -/
def subStarWs : Str → Str
  | [] => []
  | c :: rest => if c = '*' then subStarWs (rest.dropWhile isPySpace) else c :: subStarWs rest
termination_by s => s.length
decreasing_by
  · have := dropWhileLenLe isPySpace rest
    simp only [List.length_cons]
    omega
  · simp only [List.length_cons]
    omega

/-- `re.sub(r'\s+', ' ', desc)`: collapse whitespace runs to one space. -/
def collapseWs : Str → Str
  | [] => []
  | c :: rest =>
    if isPySpace c then ' ' :: collapseWs (rest.dropWhile isPySpace)
    else c :: collapseWs rest
termination_by s => s.length
decreasing_by
  · have := dropWhileLenLe isPySpace rest
    simp only [List.length_cons]
    omega
  · simp only [List.length_cons]
    omega

/-- The clean-up steps on the extracted description line: strip `*` runs,
collapse whitespace, strip, truncate past 120 characters, and fall back
when empty. -/
def descPostProcess (sname fallback desc0 : Str) : Str :=
  if pyStrip (collapseWs (subStarWs desc0)) = [] then fallback
  else if (pyStrip (collapseWs (subStarWs desc0))).length > 120 then
    (pyStrip (collapseWs (subStarWs desc0))).take 117 ++ tl "..."
  else pyStrip (collapseWs (subStarWs desc0))

/-- The body of `extract_class_description` after the content was read:
locate the class/struct, take the last `/** ... */` block in the window
before it (`window500` distinguishes the 500-character window of
`update_all_nodes.py` from the unbounded look-back of
`update_node_titles.py`), and post-process its first non-empty line. -/
def descFromContent (window500 : Bool) (content sname fallback : Str) : Str :=
  match posOfClassStruct content sname with
  | none => fallback
  | some start =>
    match (docBlocks (if window500 then (content.take start).drop (start - 500)
                      else content.take start)).getLast? with
    | none => fallback
    | some docText =>
      match ((splitNl docText).map pyStrip).filter (fun l => l ≠ []) with
      | [] => fallback
      | first :: _ =>
        descPostProcess sname fallback
          (if containsSub (tl " - ") first then splitAfterFirst ' ' (tl "- ") first
           else if sname.isPrefixOf first then pyStripChars [' ', '-'] (first.drop sname.length)
           else first)

/-- `update_all_nodes.extract_class_description`. -/
def extract_class_description_UA (fs : FS) (p : Str) (sname : Str) : Str :=
  match readContent fs p with
  | none => get_fallback_description_UA sname
  | some c => descFromContent true c sname (get_fallback_description_UA sname)

/-- `update_node_titles.extract_class_description`. -/
def extract_class_description_UNT (fs : FS) (p : Str) (sname : Str) : Str :=
  match readContent fs p with
  | none => get_fallback_description_UNT sname
  | some c => descFromContent false c sname (get_fallback_description_UNT sname)

/-! ### File search (`find_class_file` / `find_cpp_file`)

The `CLASS_TO_FILE` mapping is identical in `update_all_nodes.py` and
`update_node_titles.py`; the search functions differ slightly between the
two files and are modelled separately.  Note the faithful quirk: in the
mapping branch the loop variable `ext` of the exhausted `.h`/`.hpp` loop
leaks into the subdirectory loop, which therefore only tries `.hpp`. -/

/-- The `CLASS_TO_FILE` mapping. -/
def CLASS_TO_FILE : List (Str × Str) :=
  [(tl "ofApp", tl "ofApp"), (tl "ofBaseApp", tl "ofBaseApp"),
   (tl "TriggerEvent", tl "modules/Module"), (tl "Port", tl "modules/Module"),
   (tl "SampleRef", tl "modules/MultiSampler"), (tl "Voice", tl "modules/MultiSampler")]

/-- `SRC_DIR` (identical in all scripts that use it). -/
def SRC_DIR : Str := tl "/Users/jaufre/works/of_v0.12.1_osx_release/apps/myApps/videoTracker/src"

/-- `pathlib` `/` on a relative string. -/
def pjoin (a b : Str) : Str := a ++ '/' :: b

/-- The subdirectory list tried by both scripts. -/
def SUBDIRS : List Str :=
  [tl "core", tl "modules", tl "gui", tl "utils", tl "data", tl "input", tl "shell"]

/-- `Path.exists()`. -/
def pexists (fs : FS) (p : Str) : Bool := (fs p).isSome

/-- First existing path among the candidates (an early-returning loop of
`path.exists()` checks). -/
def firstExisting (fs : FS) (ps : List Str) : Option Str := ps.find? (pexists fs)

/-- The standard search shared by both `find_class_file` versions: exact
name with `.h`/`.hpp`, then each subdirectory with each extension. -/
def stdClassSearch (fs : FS) (name : Str) : Option Str :=
  match firstExisting fs [pjoin SRC_DIR (name ++ tl ".h"), pjoin SRC_DIR (name ++ tl ".hpp")] with
  | some p => some p
  | none =>
    firstExisting fs (SUBDIRS.flatMap (fun d =>
      [pjoin SRC_DIR (pjoin d (name ++ tl ".h")), pjoin SRC_DIR (pjoin d (name ++ tl ".hpp"))]))

/-- The mapping branch shared by both `find_class_file` versions; `none`
means fall through to the standard search. -/
def mappedClassSearch (fs : FS) (base : Str) : Option Str :=
  if containsSub (tl "/") base then
    if pexists fs (pjoin SRC_DIR (base ++ tl ".h")) then some (pjoin SRC_DIR (base ++ tl ".h"))
    else none
  else
    match firstExisting fs [pjoin SRC_DIR (base ++ tl ".h"), pjoin SRC_DIR (base ++ tl ".hpp")] with
    | some p => some p
    | none =>
      firstExisting fs (SUBDIRS.map (fun d => pjoin SRC_DIR (pjoin d (base ++ tl ".hpp"))))

/-- `update_all_nodes.find_class_file`. -/
def find_class_file_UA (fs : FS) (name : Str) : Option Str :=
  match lookupP CLASS_TO_FILE name with
  | some base =>
    match mappedClassSearch fs base with
    | some p => some p
    | none => stdClassSearch fs name
  | none => stdClassSearch fs name

/-- The naming-convention variants of `update_node_titles.find_class_file`:
the name itself, all lower case, and first letter lowered. -/
def nameVariants (name : Str) : List Str :=
  [name, toLowerStr name,
   match name with
   | [] => []
   | c :: rest => Char.toLower c :: rest]

/-- `update_node_titles.find_class_file` (the `update_all_nodes` search
plus the variants loop). -/
def find_class_file_UNT (fs : FS) (name : Str) : Option Str :=
  match find_class_file_UA fs name with
  | some p => some p
  | none =>
    firstExisting fs ((nameVariants name).flatMap (fun v =>
      SUBDIRS.flatMap (fun d =>
        [pjoin SRC_DIR (pjoin d (v ++ tl ".h")), pjoin SRC_DIR (pjoin d (v ++ tl ".hpp"))])))

/-- The standard `.cpp` search shared by both `find_cpp_file` versions. -/
def stdCppSearch (fs : FS) (name : Str) : Option Str :=
  firstExisting fs (pjoin SRC_DIR (name ++ tl ".cpp") ::
    SUBDIRS.map (fun d => pjoin SRC_DIR (pjoin d (name ++ tl ".cpp"))))

/-- `update_all_nodes.find_cpp_file`.  In the mapping branch with a `/` in
the base name the source only replaces `.h` by `.cpp` inside the base
(which contains no `.h`), so it checks an extension-less path. -/
def find_cpp_file_UA (fs : FS) (name : Str) : Option Str :=
  match lookupP CLASS_TO_FILE name with
  | some base =>
    if containsSub (tl "/") base then
      if pexists fs (pjoin SRC_DIR (replaceAll (tl ".h") (tl ".cpp") base)) then
        some (pjoin SRC_DIR (replaceAll (tl ".h") (tl ".cpp") base))
      else stdCppSearch fs name
    else
      match firstExisting fs (pjoin SRC_DIR (base ++ tl ".cpp") ::
          SUBDIRS.map (fun d => pjoin SRC_DIR (pjoin d (base ++ tl ".cpp")))) with
      | some p => some p
      | none => stdCppSearch fs name
  | none => stdCppSearch fs name

/-- `update_node_titles.find_cpp_file` (no `/` handling in the mapping
branch: the base is used as-is with `.cpp` appended). -/
def find_cpp_file_UNT (fs : FS) (name : Str) : Option Str :=
  match lookupP CLASS_TO_FILE name with
  | some base =>
    match firstExisting fs (pjoin SRC_DIR (base ++ tl ".cpp") ::
        SUBDIRS.map (fun d => pjoin SRC_DIR (pjoin d (base ++ tl ".cpp")))) with
    | some p => some p
    | none => stdCppSearch fs name
  | none => stdCppSearch fs name

/-! ### Key-method selection -/

/-- High-priority test of `get_key_interaction_methods` (identical copies
in `update_all_nodes.py` and `update_node_titles.py`). -/
def isHighPrio (m : Str) : Bool :=
  anyKwIn [tl "connect", tl "disconnect", tl "register", tl "execute",
           tl "route", tl "subscribe", tl "unsubscribe"] (toLowerStr m)

/-- Medium-priority test (the three `elif` arms). -/
def isMedPrio (m : Str) : Bool :=
  ((tl "get").isPrefixOf m &&
    anyKwIn [tl "module", tl "manager", tl "router", tl "registry",
             tl "factory", tl "connection", tl "state"] (toLowerStr m)) ||
  anyKwIn [tl "notify", tl "on", tl "set"] (toLowerStr m) ||
  anyKwIn [tl "load", tl "save", tl "serialize", tl "deserialize"] (toLowerStr m)

/-- `result.extend(ext[:8 - len(result)])` guarded by `len(result) < 8`. -/
def extendTo8 (r ext : List Str) : List Str :=
  if r.length < 8 then r ++ ext.take (8 - r.length) else r

/-- The bucket combination of `get_key_interaction_methods`. -/
def kimCombine (all : List Str) : List Str :=
  extendTo8 (extendTo8 ((all.filter isHighPrio).take 6)
      (all.filter (fun m => !isHighPrio m && isMedPrio m)))
    (all.filter (fun m => !isHighPrio m && !(isMedPrio m)))

/-- `get_key_interaction_methods` (identical copies in
`update_all_nodes.py` and `update_node_titles.py`; the `class_name`
parameter is unused in the source as well). -/
def get_key_interaction_methods (class_name : Str) (all : List Str) : List Str :=
  if all = [] then []
  else if kimCombine all = [] then (all.take 8).take 8
  else (kimCombine all).take 8

/-! ### Node-text formatting -/

/-- `- `m`()` bullet lines for the selected methods. -/
def methodLines (methods : List Str) : List Str :=
  methods.map (fun m => tl "- `" ++ m ++ tl "()`")

/-- The title: `# ClassName.cpp/h` or `# ClassName.h`. -/
def titleLine (class_name : Str) (has_cpp : Bool) : Str :=
  tl "# " ++ class_name ++ (if has_cpp then tl ".cpp/h" else tl ".h")

/-- `update_all_nodes.format_node_text`: description (falling back to
`get_fallback_description` when empty) and bare method bullets. -/
def format_node_text_UA (class_name : Str) (methods : List Str) (has_cpp : Bool)
    (desc : Str) : Str :=
  joinNl ([titleLine class_name has_cpp, []] ++
    (if (if desc = [] then get_fallback_description_UA class_name else desc) ≠ [] then
      [tl "*" ++ (if desc = [] then get_fallback_description_UA class_name else desc) ++ tl "*"]
     else []) ++
    [[]] ++ methodLines methods)

/-- `update_node_titles.format_node_text`: description or placeholder
notes, and a `**Key Methods:**` heading. -/
def format_node_text_UNT (class_name : Str) (methods : List Str) (has_cpp : Bool)
    (desc : Str) : Str :=
  joinNl ([titleLine class_name has_cpp, []] ++
    (if desc ≠ [] then [tl "*" ++ desc ++ tl "*", []]
     else if methods = [] then [tl "*(Class definition found)*", []] else []) ++
    (if methods ≠ [] then tl "**Key Methods:**" :: methodLines methods
     else if desc = [] then [tl "*(No public methods found)*"] else []))

/-- `add_shell_nodes.format_node_text` (description from the class info
and a `**Key Methods:**` heading). -/
def format_node_text_AS (class_name : Str) (desc : Str) (methods : List Str)
    (has_cpp : Bool) : Str :=
  joinNl ([titleLine class_name has_cpp, []] ++
    (if desc ≠ [] then [tl "*" ++ desc ++ tl "*", []] else []) ++
    (if methods ≠ [] then tl "**Key Methods:**" :: methodLines methods else []))

/-! ### The node-update loops of `update_all_nodes.py` and
`update_node_titles.py` -/

/-- The struct names special-cased by both update loops. -/
def STRUCT_NAMES : List Str := [tl "TriggerEvent", tl "Port", tl "SampleRef", tl "Voice"]

/-- Pattern 3 of `update_all_nodes.update_all_nodes`: the stripped first
line with ` (abstract)`, `.h`, `.cpp/h`, `.cpp` and `#` removed, then
stripped again. -/
def cleanFirstLineUA (text : Str) : Str :=
  pyStrip (replaceAll (tl "#") []
    (replaceAll (tl ".cpp") []
      (replaceAll (tl ".cpp/h") []
        (replaceAll (tl ".h") []
          (replaceAll (tl " (abstract)") []
            (pyStrip ((splitNl text).headD [])))))))

/-- Pattern 3 of `update_node_titles.main` (no `#` removal). -/
def cleanFirstLineUNT (text : Str) : Str :=
  pyStrip (replaceAll (tl ".cpp") []
    (replaceAll (tl ".cpp/h") []
      (replaceAll (tl ".h") []
        (replaceAll (tl " (abstract)") []
          (pyStrip ((splitNl text).headD []))))))

/-- The three-pattern class-name extraction of
`update_all_nodes.update_all_nodes` over the stripped node text. -/
def extractClassNameUA (text : Str) : Str :=
  match searchHashNameDotH text with
  | some w => w
  | none =>
    match searchStarName text with
    | some w => w
    | none => cleanFirstLineUA text

/-- The three-pattern class-name extraction of `update_node_titles.main`. -/
def extractClassNameUNT (text : Str) : Str :=
  match searchHashNameDotH text with
  | some w => w
  | none =>
    match searchStarName text with
    | some w => w
    | none => cleanFirstLineUNT text

/-- The warning printed when no class name could be extracted (identical
text in both scripts). -/
def warnNoClassName (text : Str) : Str :=
  tl "  Warning: Could not extract class name from node: " ++ text.take 50 ++ tl "..."

/-- Struct members or all public methods, as selected by the `is_struct`
test of `update_all_nodes.update_all_nodes`. -/
def allMethodsUA (fs : FS) (cname hp : Str) : List Str :=
  if STRUCT_NAMES.contains cname then extract_struct_members fs hp cname
  else extract_all_public_methods_UA fs hp

/-- The extracted description with the double fallback of
`update_all_nodes.update_all_nodes` (lines 516-519). -/
def descWithFallbackUA (fs : FS) (cname hp : Str) : Str :=
  if extract_class_description_UA fs hp cname = [] then get_fallback_description_UA cname
  else extract_class_description_UA fs hp cname

/-- The new node text of the `update_all_nodes` loop once the header was
found. -/
def newTextFoundUA (fs : FS) (cname hp : Str) (has_cpp : Bool) : Str :=
  format_node_text_UA cname (get_key_interaction_methods cname (allMethodsUA fs cname hp))
    has_cpp (descWithFallbackUA fs cname hp)

/-- The per-node status lines of the `update_all_nodes` loop once the
header was found. -/
def statusFoundUA (fs : FS) (cname hp : Str) : List Str :=
  if get_key_interaction_methods cname (allMethodsUA fs cname hp) ≠ [] then
    [tl "    ✓ Found " ++ natStr (allMethodsUA fs cname hp).length ++ tl " methods, selected "
      ++ natStr (get_key_interaction_methods cname (allMethodsUA fs cname hp)).length
      ++ tl " key methods"]
  else if descWithFallbackUA fs cname hp ≠ [] then
    [tl "    ✓ Added description: " ++ (descWithFallbackUA fs cname hp).take 50 ++ tl "..."]
  else [tl "    ⚠️  No methods or description found"]

/-- The part of the `update_all_nodes` loop body after a class name was
extracted: header missing yields the fallback-description rewrite, else
the full rewrite. -/
def processNamedUA (fs : FS) (node : CNode) (cname : Str) : CNode × List Str :=
  match find_class_file_UA fs cname with
  | none =>
    ({ node with
        text := format_node_text_UA cname [] false (get_fallback_description_UA cname) },
     [tl "  ⚠️  " ++ cname ++ tl ": Header file not found, using fallback description"])
  | some hp =>
    ({ node with text := newTextFoundUA fs cname hp ((find_cpp_file_UA fs cname).isSome) },
     (tl "  Processing " ++ cname ++ tl "...") :: statusFoundUA fs cname hp)

/-- One node of the `update_all_nodes.update_all_nodes` loop: the
(possibly rewritten) node and the stdout lines printed for it. -/
def processNodeUA (fs : FS) (node : CNode) : CNode × List Str :=
  if node.ntype ≠ tl "text" then (node, [])
  else if extractClassNameUA (pyStrip node.text) = [] then
    (node, [warnNoClassName (pyStrip node.text)])
  else
    processNamedUA fs node (extractClassNameUA (pyStrip node.text))

/-- `update_all_nodes.update_all_nodes` on a loaded canvas: the written
canvas and the per-node stdout lines of the loop (the surrounding
path/count prints are not modelled). -/
def update_all_nodes (fs : FS) (doc : Canvas) : Canvas × List Str :=
  ({ doc with nodes := doc.nodes.map (fun n => (processNodeUA fs n).1) },
   (doc.nodes.map (fun n => (processNodeUA fs n).2)).flatten)

/-- Struct members or all public methods for `update_node_titles.main`. -/
def allMethodsUNT (fs : FS) (cname hp : Str) : List Str :=
  if STRUCT_NAMES.contains cname then extract_struct_members fs hp cname
  else extract_all_public_methods_UNT fs hp

/-- The new node text of the `update_node_titles.main` loop once the
header was found (no extra fallback re-check, unlike `update_all_nodes`). -/
def newTextFoundUNT (fs : FS) (cname hp : Str) (has_cpp : Bool) : Str :=
  format_node_text_UNT cname (get_key_interaction_methods cname (allMethodsUNT fs cname hp))
    has_cpp (extract_class_description_UNT fs hp cname)

/-- The per-node status lines of the `update_node_titles.main` loop once
the header was found. -/
def statusFoundUNT (fs : FS) (cname hp : Str) : List Str :=
  if get_key_interaction_methods cname (allMethodsUNT fs cname hp) ≠ [] then
    [tl "    ✓ Found " ++ natStr (allMethodsUNT fs cname hp).length ++ tl " methods, selected "
      ++ natStr (get_key_interaction_methods cname (allMethodsUNT fs cname hp)).length
      ++ tl " key methods"]
  else if extract_class_description_UNT fs hp cname ≠ [] then
    [tl "    ✓ Added description: " ++ (extract_class_description_UNT fs hp cname).take 50
      ++ tl "..."]
  else [tl "    ⚠️  No methods or description found"]

/-- The part of the `update_node_titles.main` loop body after a class name
was extracted. -/
def processNamedUNT (fs : FS) (node : CNode) (cname : Str) : CNode × List Str :=
  match find_class_file_UNT fs cname with
  | none =>
    ({ node with
        text := format_node_text_UNT cname [] false (get_fallback_description_UNT cname) },
     [tl "  ⚠️  " ++ cname ++ tl ": Header file not found, using fallback description"])
  | some hp =>
    ({ node with text := newTextFoundUNT fs cname hp ((find_cpp_file_UNT fs cname).isSome) },
     (tl "  Processing " ++ cname ++ tl "...") :: statusFoundUNT fs cname hp)

/-- One node of the `update_node_titles.main` loop. -/
def processNodeUNT (fs : FS) (node : CNode) : CNode × List Str :=
  if node.ntype ≠ tl "text" then (node, [])
  else if extractClassNameUNT (pyStrip node.text) = [] then
    (node, [warnNoClassName (pyStrip node.text)])
  else
    processNamedUNT fs node (extractClassNameUNT (pyStrip node.text))

/-- `update_node_titles.main` on a loaded canvas. -/
def update_node_titles_main (fs : FS) (doc : Canvas) : Canvas × List Str :=
  ({ doc with nodes := doc.nodes.map (fun n => (processNodeUNT fs n).1) },
   (doc.nodes.map (fun n => (processNodeUNT fs n).2)).flatten)

/-! ### `add_shell_nodes.py` -/

/-- One entry of the `SHELL_CLASSES` table. -/
structure ShellInfo where
  description : Str
  isAbstract : Bool
  file : Str
  methods : List Str
deriving DecidableEq

/-- The `SHELL_CLASSES` table (Python dict; insertion order). -/
def SHELL_CLASSES : List (Str × ShellInfo) :=
  [(tl "Shell",
    ⟨tl "Base class for different UI interaction modes", true, tl "shell/Shell.h",
     [tl "setup", tl "update", tl "draw", tl "exit", tl "handleKeyPress",
      tl "handleMousePress", tl "handleMouseDrag", tl "handleMouseRelease",
      tl "handleWindowResize", tl "setActive", tl "isActive", tl "getName",
      tl "getDescription"]⟩),
   (tl "EditorShell",
    ⟨tl "Wraps existing ImGui-based editor interface with tiled windows", false,
     tl "shell/EditorShell.h",
     [tl "setup", tl "update", tl "draw", tl "exit", tl "handleKeyPress",
      tl "handleMousePress", tl "handleWindowResize", tl "setDrawGUICallback",
      tl "setHandleKeyPressCallback"]⟩),
   (tl "CommandShell",
    ⟨tl "Custom-rendered terminal interface with REPL (Hydra/Strudel style)", false,
     tl "shell/CommandShell.h",
     [tl "setup", tl "update", tl "draw", tl "exit", tl "handleKeyPress",
      tl "handleMousePress", tl "handleMouseDrag", tl "handleMouseRelease",
      tl "handleWindowResize", tl "setEmbeddedMode", tl "isEmbeddedMode",
      tl "setEmbeddedBounds", tl "appendOutput"]⟩),
   (tl "CodeShell",
    ⟨tl "Live-coding shell with code editor and REPL (Strudel/Tidal/Hydra style)", false,
     tl "shell/CodeShell.h",
     [tl "setup", tl "update", tl "draw", tl "exit", tl "handleKeyPress",
      tl "handleMousePress", tl "handleMouseDrag", tl "handleMouseRelease",
      tl "handleWindowResize", tl "refreshScriptFromState", tl "executeSelection",
      tl "executeAll"]⟩),
   (tl "CLIShell",
    ⟨tl "Batch CLI mode for non-interactive command execution", false,
     tl "shell/CLIShell.h",
     [tl "setup", tl "update", tl "draw", tl "exit", tl "handleKeyPress",
      tl "executeCommand", tl "executeFromStdin", tl "executeFromFile",
      tl "shouldExit"]⟩)]

/-- The keys of `SHELL_CLASSES` in insertion order. -/
def shellClassNames : List Str := SHELL_CLASSES.map Prod.fst

/-- The `existing_classes` harvest of `add_shell_nodes.add_shell_nodes`
(a Python set used only for membership tests, modelled as a list). -/
def existingClasses (nodes : List CNode) : List Str :=
  nodes.foldl (fun acc n =>
    if n.ntype = tl "text" then
      match searchHashNameDot n.text with
      | some m => acc ++ [m]
      | none => acc
    else acc) []

/-- The per-node class-name harvest underlying `existing_classes`
(text nodes contribute the title match, other nodes nothing). -/
def ecF (n : CNode) : Option Str :=
  if n.ntype = tl "text" then searchHashNameDot n.text else none

/-- `add_shell_nodes.find_shell_node_position`. -/
def find_shell_node_position (doc : Canvas) : Option (Int × Int) :=
  doc.nodes.findSome? (fun n =>
    if n.ntype = tl "text" && hasHashShellDot n.text then some (n.x, n.y) else none)

/-- The Shell position with the hard-coded default. -/
def shellPosOr (doc : Canvas) : Int × Int :=
  (find_shell_node_position doc).getD (2140, -4320)

/-- Keyword test of `add_shell_nodes.get_key_methods`. -/
def isKwAS (m : Str) : Bool :=
  anyKwIn [tl "handle", tl "execute", tl "setup", tl "update", tl "draw",
           tl "set", tl "get"] (toLowerStr m)

/-- `add_shell_nodes.get_key_methods`. -/
def get_key_methods (all : List Str) (info : ShellInfo) : List Str :=
  if all = [] then info.methods.take 8
  else (extendTo8 ((all.filter isKwAS).take 6) (all.filter (fun m => !isKwAS m))).take 8

/-- The node built for one missing shell class: `k` counts the nodes
created so far (for the uuid supply), `i` is the `enumerate` index. -/
def mkShellNode (fs : FS) (ids : Nat → Str) (sx sy : Int) (k i : Nat)
    (name : Str) (info : ShellInfo) : CNode :=
  { id := ids k, ntype := tl "text",
    text := format_node_text_AS name info.description
      (get_key_methods (extract_public_methods_AS fs (pjoin SRC_DIR info.file)) info)
      (pexists fs (pjoin SRC_DIR (replaceAll (tl ".h") (tl ".cpp") info.file))),
    x := sx, y := sy + 400 + (i : Int) * 150,
    width := if info.isAbstract then 320 else 280,
    height := if info.isAbstract then 140 else 100,
    color := none, styleAttrs := true }

/-- One step of the creation loop (`Shell` itself is skipped but still
consumes its `enumerate` index). -/
def addShellStep (fs : FS) (ids : Nat → Str) (sx sy : Int)
    (st : List CNode) (p : Nat × Str) : List CNode :=
  if p.2 = tl "Shell" then st
  else
    match lookupP SHELL_CLASSES p.2 with
    | none => st
    | some info => st ++ [mkShellNode fs ids sx sy st.length p.1 p.2 info]

/-- The `new_nodes` list built by `add_shell_nodes.add_shell_nodes`. -/
def addShellNewNodes (fs : FS) (ids : Nat → Str) (doc : Canvas) : List CNode :=
  ((shellClassNames.filter (fun n => !((existingClasses doc.nodes).contains n))).enum).foldl
    (addShellStep fs ids (shellPosOr doc).1 (shellPosOr doc).2) []

/-- `add_shell_nodes.add_shell_nodes` on a loaded canvas (the written
document: existing nodes extended with the new ones). -/
def add_shell_nodes (fs : FS) (ids : Nat → Str) (doc : Canvas) : Canvas :=
  { doc with nodes := doc.nodes ++ addShellNewNodes fs ids doc }

/-! ### `update_existing_canvas.py`

The iteration order of the Python set `missing_classes` and the random
node ids are parameters (`sigma` reorders the missing list, `ids`
supplies ids). -/

/-- The `ALL_CLASSES` set, listed in source order. -/
def ALL_CLASSES_LIST : List Str :=
  [tl "ofBaseApp", tl "ofApp",
   tl "Clock", tl "ModuleFactory", tl "ModuleRegistry", tl "ConnectionManager",
   tl "ParameterRouter", tl "SessionManager", tl "ProjectManager",
   tl "AudioRouter", tl "VideoRouter", tl "EventRouter", tl "CommandExecutor",
   tl "Engine", tl "EngineState", tl "PatternRuntime", tl "ScriptManager",
   tl "Module",
   tl "TrackerSequencer", tl "MultiSampler", tl "MediaPlayer", tl "VoiceProcessor",
   tl "AudioMixer", tl "VideoMixer", tl "AudioOutput", tl "VideoOutput",
   tl "Oscilloscope", tl "Spectrogram",
   tl "ModuleGUI",
   tl "GUIManager", tl "ViewManager", tl "TrackerSequencerGUI", tl "MultiSamplerGUI",
   tl "AudioMixerGUI", tl "VideoMixerGUI", tl "AudioOutputGUI", tl "VideoOutputGUI",
   tl "OscilloscopeGUI", tl "SpectrogramGUI", tl "ClockGUI", tl "MenuBar",
   tl "Console", tl "CommandBar", tl "FileBrowser", tl "AssetLibraryGUI", tl "AddMenu",
   tl "BaseCell", tl "NumCell", tl "BoolCell", tl "MenuCell", tl "ParameterCell",
   tl "CellGrid",
   tl "Pattern", tl "PatternChain", tl "SampleRef", tl "Voice", tl "ParameterDescriptor",
   tl "Port", tl "TriggerEvent", tl "Envelope", tl "VoiceManager",
   tl "AssetLibrary", tl "MediaConverter", tl "InputRouter", tl "ExpressionParser"]

/-- The `LAYER_POSITIONS` table. -/
def LAYER_POSITIONS : List (Str × (Int × Int)) :=
  [(tl "application", (-900, -700)), (tl "core", (-120, -1000)),
   (tl "module_base", (980, -900)), (tl "modules", (1080, -920)),
   (tl "gui_base", (2000, -570)), (tl "gui_classes", (2100, -600)),
   (tl "cell_system", (3000, -400)), (tl "data_structures", (3500, -400)),
   (tl "utilities", (4000, -400))]

/-- The `CLASS_TO_LAYER` table. -/
def CLASS_TO_LAYER : List (Str × Str) :=
  [(tl "ofBaseApp", tl "application"), (tl "ofApp", tl "application"),
   (tl "Clock", tl "core"), (tl "ModuleFactory", tl "core"), (tl "ModuleRegistry", tl "core"),
   (tl "ConnectionManager", tl "core"), (tl "ParameterRouter", tl "core"),
   (tl "SessionManager", tl "core"), (tl "ProjectManager", tl "core"),
   (tl "AudioRouter", tl "core"), (tl "VideoRouter", tl "core"),
   (tl "EventRouter", tl "core"), (tl "CommandExecutor", tl "core"),
   (tl "Engine", tl "core"), (tl "EngineState", tl "core"),
   (tl "PatternRuntime", tl "core"), (tl "ScriptManager", tl "core"),
   (tl "Module", tl "module_base"),
   (tl "TrackerSequencer", tl "modules"), (tl "MultiSampler", tl "modules"),
   (tl "MediaPlayer", tl "modules"), (tl "VoiceProcessor", tl "modules"),
   (tl "AudioMixer", tl "modules"), (tl "VideoMixer", tl "modules"),
   (tl "AudioOutput", tl "modules"), (tl "VideoOutput", tl "modules"),
   (tl "Oscilloscope", tl "modules"), (tl "Spectrogram", tl "modules"),
   (tl "ModuleGUI", tl "gui_base"),
   (tl "GUIManager", tl "gui_classes"), (tl "ViewManager", tl "gui_classes"),
   (tl "TrackerSequencerGUI", tl "gui_classes"), (tl "MultiSamplerGUI", tl "gui_classes"),
   (tl "AudioMixerGUI", tl "gui_classes"), (tl "VideoMixerGUI", tl "gui_classes"),
   (tl "AudioOutputGUI", tl "gui_classes"), (tl "VideoOutputGUI", tl "gui_classes"),
   (tl "OscilloscopeGUI", tl "gui_classes"), (tl "SpectrogramGUI", tl "gui_classes"),
   (tl "ClockGUI", tl "gui_classes"), (tl "MenuBar", tl "gui_classes"),
   (tl "Console", tl "gui_classes"), (tl "CommandBar", tl "gui_classes"),
   (tl "FileBrowser", tl "gui_classes"), (tl "AssetLibraryGUI", tl "gui_classes"),
   (tl "AddMenu", tl "gui_classes"),
   (tl "BaseCell", tl "cell_system"), (tl "NumCell", tl "cell_system"),
   (tl "BoolCell", tl "cell_system"), (tl "MenuCell", tl "cell_system"),
   (tl "ParameterCell", tl "cell_system"), (tl "CellGrid", tl "cell_system"),
   (tl "Pattern", tl "data_structures"), (tl "PatternChain", tl "data_structures"),
   (tl "SampleRef", tl "data_structures"), (tl "Voice", tl "data_structures"),
   (tl "ParameterDescriptor", tl "data_structures"), (tl "Port", tl "data_structures"),
   (tl "TriggerEvent", tl "data_structures"), (tl "Envelope", tl "data_structures"),
   (tl "VoiceManager", tl "data_structures"),
   (tl "AssetLibrary", tl "utilities"), (tl "MediaConverter", tl "utilities"),
   (tl "InputRouter", tl "utilities"), (tl "ExpressionParser", tl "utilities")]

/-- String-keyed lookup with an explicit default. -/
def lookupDS (t : List (Str × Str)) (n d : Str) : Str :=
  match lookupP t n with
  | some v => v
  | none => d

/-- The text cleaning of `get_existing_nodes` (applied to the stripped
node text; includes the `.cpp` replacement). -/
def cleanExistUEC (t : Str) : Str :=
  pyStrip (replaceAll (tl ".cpp") []
    (replaceAll (tl ".cpp/h") []
      (replaceAll (tl ".h") []
        (replaceAll (tl " (abstract)") [] t))))

/-- The text cleaning inside `create_missing_node` (applied to the raw
node text; no `.cpp` replacement). -/
def cleanLayerUEC (t : Str) : Str :=
  pyStrip (replaceAll (tl ".cpp/h") []
    (replaceAll (tl ".h") []
      (replaceAll (tl " (abstract)") [] t)))

/-- `update_existing_canvas.get_existing_nodes`: an insertion-ordered dict
from cleaned class name to node. -/
def get_existing_nodes (nodes : List CNode) : List (Str × CNode) :=
  nodes.foldl (fun ex n =>
    if n.ntype = tl "text" then upsert ex (cleanExistUEC (pyStrip n.text)) n else ex) []

/-- The abstract classes of `update_existing_canvas.create_missing_node`. -/
def ABSTRACT_UEC : List Str := [tl "Module", tl "ModuleGUI", tl "BaseCell", tl "ofBaseApp"]

/-- Number of existing nodes whose cleaned text maps to this layer
(`existing_in_layer` of `create_missing_node`). -/
def countInLayerUEC (existing : List (Str × CNode)) (layer : Str) : Nat :=
  ((existing.map Prod.snd).filter
    (fun n => lookupDS CLASS_TO_LAYER (cleanLayerUEC n.text) [] = layer)).length

/-- The per-layer position rules of `create_missing_node`. -/
def posForLayerUEC (layer : Str) (xb yb : Int) (count : Nat) : Int × Int :=
  if layer = tl "core" then (xb + (count % 2 : Nat) * 340, yb + (count / 2 : Nat) * 80)
  else if layer = tl "modules" then (xb + (count % 2 : Nat) * 280, yb + (count / 2 : Nat) * 80)
  else if layer = tl "gui_classes" then
    (xb + (count % 2 : Nat) * 280, yb + (count / 2 : Nat) * 80)
  else if layer = tl "application" then (xb, yb - (count : Int) * 100)
  else if layer = tl "module_base" then (xb, yb)
  else if layer = tl "gui_base" then (xb, yb)
  else if layer = tl "cell_system" then (xb + (count : Int) * 300, yb)
  else if layer = tl "data_structures" then (xb, yb + (count : Int) * 100)
  else if layer = tl "utilities" then (xb, yb + (count : Int) * 100)
  else (xb, yb + (count : Int) * 100)

/-- `update_existing_canvas.create_missing_node` (always returns a node in
the source; the `Optional` is never `None`). -/
def create_missing_node (ident : Str) (class_name layer : Str)
    (existing : List (Str × CNode)) : CNode :=
  { id := ident, ntype := tl "text",
    text := if ABSTRACT_UEC.contains class_name then
        tl "*" ++ class_name ++ tl "*\n(abstract)"
      else class_name,
    x := (posForLayerUEC layer ((lookupP LAYER_POSITIONS layer).getD (0, 0)).1
           ((lookupP LAYER_POSITIONS layer).getD (0, 0)).2
           (countInLayerUEC existing layer)).1,
    y := (posForLayerUEC layer ((lookupP LAYER_POSITIONS layer).getD (0, 0)).1
           ((lookupP LAYER_POSITIONS layer).getD (0, 0)).2
           (countInLayerUEC existing layer)).2,
    width := if ABSTRACT_UEC.contains class_name then 300 else 260,
    height := if ABSTRACT_UEC.contains class_name then 200 else 60,
    color := none, styleAttrs := true }

/-- One step of the creation loop of `update_existing_canvas.main`: the
created node is also inserted into the `existing_nodes` dict. -/
def uecStep (ids : Nat → Str) (st : List (Str × CNode) × List CNode) (name : Str) :
    List (Str × CNode) × List CNode :=
  (upsert st.1 name
     (create_missing_node (ids st.2.length) name (lookupDS CLASS_TO_LAYER name (tl "utilities")) st.1),
   st.2 ++ [create_missing_node (ids st.2.length) name
     (lookupDS CLASS_TO_LAYER name (tl "utilities")) st.1])

/-- The `new_nodes` list of `update_existing_canvas.main`; `sigma` stands
for the unspecified iteration order of the Python set `missing_classes`. -/
def uecNewNodes (sigma : List Str → List Str) (ids : Nat → Str) (doc : Canvas) :
    List CNode :=
  ((sigma (ALL_CLASSES_LIST.filter
      (fun n => !((get_existing_nodes doc.nodes).map Prod.fst).contains n))).foldl
    (uecStep ids) (get_existing_nodes doc.nodes, [])).2

/-- `update_existing_canvas.main` on a loaded canvas: missing nodes are
appended, all edges are removed (`canvas_data["edges"] = []`), and a
metadata object is added when missing. -/
def update_existing_canvas_main (sigma : List Str → List Str) (ids : Nat → Str)
    (doc : Canvas) : Canvas :=
  { nodes := doc.nodes ++ uecNewNodes sigma ids doc,
    edges := [],
    metadata := match doc.metadata with
      | none => some (tl "1.0-1.0")
      | some m => some m }

/-! ### `generate_uml_canvas.py` layout -/

/-- A `UMLClass` object (the fields used by `layout_classes`). -/
structure UMLClass where
  name : Str
  layer : Str
  isAbs : Bool
  x : Int
  y : Int
deriving DecidableEq

/-- The class lists of `UML_LAYERS`, in source (dict-insertion) order. -/
def UML_LAYER_CLASSES : List (Str × List Str) :=
  [(tl "application", [tl "ofApp", tl "ofBaseApp"]),
   (tl "core_systems",
    [tl "Clock", tl "ModuleFactory", tl "ModuleRegistry", tl "ConnectionManager",
     tl "ParameterRouter", tl "SessionManager", tl "ProjectManager",
     tl "AudioRouter", tl "VideoRouter", tl "EventRouter", tl "CommandExecutor",
     tl "Engine", tl "EngineState", tl "PatternRuntime", tl "ScriptManager"]),
   (tl "module_base", [tl "Module"]),
   (tl "modules",
    [tl "TrackerSequencer", tl "MultiSampler", tl "MediaPlayer", tl "VoiceProcessor",
     tl "AudioMixer", tl "VideoMixer", tl "AudioOutput", tl "VideoOutput",
     tl "Oscilloscope", tl "Spectrogram"]),
   (tl "gui_base", [tl "ModuleGUI"]),
   (tl "gui_classes",
    [tl "GUIManager", tl "ViewManager", tl "TrackerSequencerGUI", tl "MultiSamplerGUI",
     tl "AudioMixerGUI", tl "VideoMixerGUI", tl "AudioOutputGUI", tl "VideoOutputGUI",
     tl "OscilloscopeGUI", tl "SpectrogramGUI", tl "ClockGUI", tl "MenuBar",
     tl "Console", tl "CommandBar", tl "FileBrowser", tl "AssetLibraryGUI", tl "AddMenu"]),
   (tl "cell_system",
    [tl "BaseCell", tl "NumCell", tl "BoolCell", tl "MenuCell", tl "ParameterCell",
     tl "CellGrid"]),
   (tl "data_structures",
    [tl "Pattern", tl "PatternChain", tl "SampleRef", tl "Voice", tl "ParameterDescriptor",
     tl "Port", tl "TriggerEvent", tl "Envelope", tl "VoiceManager"]),
   (tl "utilities", [tl "AssetLibrary", tl "MediaConverter", tl "InputRouter",
     tl "ExpressionParser"])]

/-- The layer coordinates of `UML_LAYERS` (`x` 0, 800, ..., 6400; `y` 0). -/
def UML_LAYER_XY : List (Str × (Int × Int)) :=
  [(tl "application", (0, 0)), (tl "core_systems", (800, 0)), (tl "module_base", (1600, 0)),
   (tl "modules", (2400, 0)), (tl "gui_base", (3200, 0)), (tl "gui_classes", (4000, 0)),
   (tl "cell_system", (4800, 0)), (tl "data_structures", (5600, 0)),
   (tl "utilities", (6400, 0))]

/-- `UMLClass._find_layer`: the first layer whose class list contains the
name, defaulting to `utilities`. -/
def findLayerGEN (n : Str) : Str :=
  match UML_LAYER_CLASSES.find? (fun p => p.2.contains n) with
  | some p => p.1
  | none => tl "utilities"

/-- `UMLClass.__init__` (the layout-relevant fields; `x`/`y` start at 0). -/
def mkUMLClass (n : Str) : UMLClass :=
  ⟨n, findLayerGEN n,
   [tl "Module", tl "ModuleGUI", tl "BaseCell", tl "ofBaseApp"].contains n, 0, 0⟩

/-- `UML_LAYERS.get(layer, {}).get("x"/"y", 0)`. -/
def layerXY (layer : Str) : Int × Int := (lookupP UML_LAYER_XY layer).getD (0, 0)

/-- Python string `<` (lexicographic by code point). -/
def strLt : Str → Str → Bool
  | [], [] => false
  | [], _ :: _ => true
  | _ :: _, [] => false
  | a :: as, b :: bs =>
    if a.toNat < b.toNat then true else if b.toNat < a.toNat then false else strLt as bs

/-- The sort key ordering of `layout_classes`:
`(not c.is_abstract, c.name)` compared lexicographically (Python tuple
order, `False < True`). -/
def umlLe (c d : UMLClass) : Bool :=
  (c.isAbs && !d.isAbs) || ((c.isAbs = d.isAbs) && !(strLt d.name c.name))

/-- First-occurrence deduplication (the iteration order of
`by_layer.items()`, a `defaultdict` filled in class order). -/
def firstDedup : List Str → List Str
  | [] => []
  | a :: rest => a :: firstDedup (rest.filter (fun b => b ≠ a))
termination_by l => l.length
decreasing_by
  have := List.length_filter_le (fun b => decide (b ≠ a)) rest
  simp only [List.length_cons]
  omega

/-- The classes of one layer, in input order (`by_layer[layer]`). -/
def groupOf (cs : List UMLClass) (lay : Str) : List UMLClass :=
  cs.filter (fun c => c.layer = lay)

/-- One layer group after `layer_classes.sort(key=...)`. -/
def sortedGroup (cs : List UMLClass) (lay : Str) : List UMLClass :=
  (groupOf cs lay).mergeSort umlLe

/-- The positions assigned inside one layer: the `i`-th class of the
sorted group is put at `(x_base, y_base + LAYER_HEADER_HEIGHT + i * NODE_SPACING_Y)`
with `LAYER_HEADER_HEIGHT = 120` and `NODE_SPACING_Y = 150`. -/
def layerAssignments (cs : List UMLClass) (lay : Str) : List (Str × (Int × Int)) :=
  (sortedGroup cs lay).enum.map (fun p =>
    (p.2.name, ((layerXY lay).1, (layerXY lay).2 + 120 + (p.1 : Int) * 150)))

/-- All position assignments, layer by layer in first-occurrence order. -/
def layoutAssignments (cs : List UMLClass) : List (Str × (Int × Int)) :=
  (firstDedup (cs.map (fun c => c.layer))).foldl
    (fun acc lay => acc ++ layerAssignments cs lay) []

/-- `generate_uml_canvas.layout_classes`: the in-place mutation of the
`UMLClass` objects is modelled by applying the name-keyed assignment map
(faithful because `classes` is a dict keyed by class name, so names are
distinct). -/
def layout_classes (cs : List UMLClass) : List UMLClass :=
  cs.map (fun c =>
    match lookupP (layoutAssignments cs) c.name with
    | some p => { c with x := p.1, y := p.2 }
    | none => c)

/-! ### The public-region property (claim C6)

For the brace-depth scanners: every collected method name was extracted
from a line that lies inside a class body (the running brace depth since
the class-start line stays positive) and after a `public:` line with no
intervening `private:`/`protected:` line. -/

/-- Sum of the brace deltas of lines `j..k` (inclusive). -/
def depthFrom (ls : List Str) (j k : Nat) : Int :=
  (((ls.take (k + 1)).drop j).map braceDelta).sum

/-- The region property for one extracted method name. -/
def RegionProp (extract : Str → Option Str) (ls : List Str) (m : Str) : Prop :=
  ∃ i, ∃ hi : i < ls.length, extract (ls.get ⟨i, hi⟩) = some m ∧
    ∃ j p, j < p ∧ p < i ∧
      (∃ hj : j < ls.length, isClassStartLine (ls.get ⟨j, hj⟩) = true) ∧
      (∀ k (hk : k < ls.length), j < k → k ≤ i → isClassStartLine (ls.get ⟨k, hk⟩) = false) ∧
      (∀ k, j < k → k ≤ i → 0 < depthFrom ls j k) ∧
      (∃ hp : p < ls.length, isPublicLine (ls.get ⟨p, hp⟩) = true) ∧
      (∀ q (hq : q < ls.length), p < q → q < i → isPrivProtLine (ls.get ⟨q, hq⟩) = false)

/-- Invariant context for an open class: `j` is the class-start line, `t`
the number of processed lines, `d` the scanner's depth. -/
def ClassCtx (ls : List Str) (j t : Nat) (d : Int) : Prop :=
  j < t ∧ (∃ hj : j < ls.length, isClassStartLine (ls.get ⟨j, hj⟩) = true) ∧
  (∀ k (hk : k < ls.length), j < k → k < t → isClassStartLine (ls.get ⟨k, hk⟩) = false) ∧
  (∀ k, j < k → k < t → 0 < depthFrom ls j k) ∧
  d = depthFrom ls j (t - 1)

/-- Invariant context for an open `public:` section. -/
def PubCtx (ls : List Str) (p t : Nat) : Prop :=
  p < t ∧ (∃ hp : p < ls.length, isPublicLine (ls.get ⟨p, hp⟩) = true) ∧
  (∀ q (hq : q < ls.length), p < q → q < t → isPrivProtLine (ls.get ⟨q, hq⟩) = false)

/-- The scanner invariant after `t` processed lines. -/
def ScanInv (extract : Str → Option Str) (ls : List Str) (t : Nat) (s : ScanSt) : Prop :=
  (s.inClass = true → ∃ j, ClassCtx ls j t s.depth) ∧
  (s.inClass = true → s.inPub = true →
    ∃ j p, j < p ∧ ClassCtx ls j t s.depth ∧ PubCtx ls p t) ∧
  (∀ m ∈ s.acc, RegionProp extract ls m)

/-! ### Concrete data for the witness theorems -/

/-- The empty file system (no file exists). -/
def fsEmpty : FS := fun _ => none

/-- A minimal header exercising the public-region scanners. -/
def hdrC6 : Str :=
  tl "class A \x7b\npublic:\n  void getFoo();\nprivate:\n  void getBar();\n\x7d;\n"

/-- An unparseable text node (for claim C5). -/
def nodeC5 : CNode := ⟨tl "w1", tl "text", tl "", 0, 0, 1, 1, none, false⟩

/-- A canvas with one unparseable text node (for claim C5). -/
def docC5 : Canvas := ⟨[nodeC5], [], none⟩

/-- A canvas with one edge and no nodes (for the claim C4 counterexample). -/
def docC4 : Canvas :=
  ⟨[], [⟨tl "e1", tl "a", tl "top", tl "b", tl "bottom", none⟩], none⟩

/-- A canvas already containing the four concrete shell nodes but no
`Shell` node (for the claim C9 counterexample). -/
def docC9 : Canvas :=
  ⟨[⟨tl "a1", tl "text", tl "# EditorShell.h", 0, 0, 1, 1, none, false⟩,
    ⟨tl "a2", tl "text", tl "# CommandShell.h", 0, 0, 1, 1, none, false⟩,
    ⟨tl "a3", tl "text", tl "# CodeShell.h", 0, 0, 1, 1, none, false⟩,
    ⟨tl "a4", tl "text", tl "# CLIShell.h", 0, 0, 1, 1, none, false⟩], [], none⟩

/-- A trivial id supply for witness runs. -/
def idsW : Nat → Str := fun k => tl "w" ++ natStr k

/-! ## Claim theorems -/

/-- Key-value agreement of two lookup tables: if every pair of `t1` also
resolves in `t2`, a non-default `t1` lookup agrees with the `t2` lookup. -/
theorem lookupD_agree (t1 t2 : List (Str × Str))
    (hsub : ∀ p ∈ t1, lookupD t2 p.1 = p.2) :
    ∀ c, lookupD t1 c ≠ [] → lookupD t2 c = lookupD t1 c := by
  induction t1 with
  | nil => intro c h; simp [lookupD] at h
  | cons p r ih =>
    intro c h
    simp only [lookupD] at h ⊢
    split at h
    · rename_i hc
      subst hc
      simp only [if_pos rfl]
      exact hsub p (List.mem_cons_self _ _)
    · rename_i hc
      rw [if_neg hc]
      exact ih (fun q hq => hsub q (List.mem_cons_of_mem _ hq)) c h

/-- Claim C1: `add_shell_nodes` and the update in `update_existing_canvas`
write exactly the loaded nodes, unchanged and in order, followed by the
newly created nodes, so the output node count is the input count plus the
number of added nodes. -/
theorem claim_C1_roundtrip_nodes (fs : FS) (ids : Nat → Str)
    (sigma : List Str → List Str) (ids2 : Nat → Str) (doc : Canvas) :
    (add_shell_nodes fs ids doc).nodes = doc.nodes ++ addShellNewNodes fs ids doc ∧
    (add_shell_nodes fs ids doc).nodes.length
      = doc.nodes.length + (addShellNewNodes fs ids doc).length ∧
    (update_existing_canvas_main sigma ids2 doc).nodes
      = doc.nodes ++ uecNewNodes sigma ids2 doc ∧
    (update_existing_canvas_main sigma ids2 doc).nodes.length
      = doc.nodes.length + (uecNewNodes sigma ids2 doc).length := by
  refine ⟨rfl, ?_, rfl, ?_⟩ <;>
    simp [add_shell_nodes, update_existing_canvas_main, List.length_append]

/-- Claim C2: a missing or unreadable header makes every extractor return
the empty list, and the `update_all_nodes` node-text builder then falls
back to the hard-coded description for the class. -/
theorem claim_C2_missing_header_fallback (fs : FS) (p : Str)
    (h : fs p = none ∨ fs p = some none) :
    extract_public_methods_AS fs p = [] ∧
    extract_all_public_methods_UA fs p = [] ∧
    (∀ sname, extract_struct_members fs p sname = []) ∧
    (∀ cname methods has_cpp,
      format_node_text_UA cname methods has_cpp []
        = format_node_text_UA cname methods has_cpp (get_fallback_description_UA cname)) := by
  have hrc : readContent fs p = none := by
    rcases h with h | h <;> simp [readContent, h]
  refine ⟨?_, ?_, ?_, ?_⟩
  · simp [extract_public_methods_AS, hrc]
  · simp [extract_all_public_methods_UA, hrc]
  · intro sname; simp [extract_struct_members, hrc]
  · intro cname methods has_cpp
    unfold format_node_text_UA
    by_cases hf : get_fallback_description_UA cname = [] <;> simp [hf]

/-- Claim C2 witness: the empty file system at a concrete path. -/
theorem claim_C2_witness :
    extract_public_methods_AS fsEmpty (tl "a.h") = [] ∧
    extract_all_public_methods_UA fsEmpty (tl "a.h") = [] ∧
    (∀ sname, extract_struct_members fsEmpty (tl "a.h") sname = []) ∧
    (∀ cname methods has_cpp,
      format_node_text_UA cname methods has_cpp []
        = format_node_text_UA cname methods has_cpp (get_fallback_description_UA cname)) :=
  claim_C2_missing_header_fallback fsEmpty (tl "a.h") (Or.inl rfl)

/-- Claim C3 counterexample: the two copies of `get_fallback_description`
differ at `Oscilloscope` (present only in the `update_all_nodes` table). -/
theorem claim_C3_counterexample :
    get_fallback_description_UA (tl "Oscilloscope")
      ≠ get_fallback_description_UNT (tl "Oscilloscope") := by
  decide

/-- Claim C3 (amended): each copy of `get_fallback_description` is a pure
lookup (deterministic by construction), and the two copies agree on every
class name on which the `update_node_titles` copy is defined (returns a
non-empty string); they differ only on names present only in the larger
`update_all_nodes` table. -/
theorem claim_C3_fallback_agreement :
    ∀ c, get_fallback_description_UNT c ≠ [] →
      get_fallback_description_UA c = get_fallback_description_UNT c := by
  intro c h
  unfold get_fallback_description_UA
  unfold get_fallback_description_UNT at h ⊢
  exact lookupD_agree fallbacksUNT fallbacksUA (by decide) c h

/-- Claim C3 witness: agreement at `EngineState`. -/
theorem claim_C3_witness :
    get_fallback_description_UNT (tl "EngineState") ≠ [] ∧
    get_fallback_description_UA (tl "EngineState")
      = get_fallback_description_UNT (tl "EngineState") :=
  ⟨by decide, claim_C3_fallback_agreement (tl "EngineState") (by decide)⟩

/-- The `update_all_nodes` loop never changes a node's id. -/
theorem processNodeUA_id (fs : FS) (n : CNode) : (processNodeUA fs n).1.id = n.id := by
  unfold processNodeUA processNamedUA
  split
  · rfl
  · split
    · rfl
    · split
      · rfl
      · rfl

/-- The `update_node_titles` loop never changes a node's id. -/
theorem processNodeUNT_id (fs : FS) (n : CNode) : (processNodeUNT fs n).1.id = n.id := by
  unfold processNodeUNT processNamedUNT
  split
  · rfl
  · split
    · rfl
    · split
      · rfl
      · rfl

/-- Claim C4 counterexample: `update_existing_canvas.main` deletes all
edges: an input with one edge is written with none. -/
theorem claim_C4_counterexample :
    (update_existing_canvas_main id idsW docC4).edges = [] ∧ docC4.edges ≠ [] :=
  ⟨rfl, by decide⟩

/-- Claim C4 (amended): no node-deletion logic exists — both node-update
scripts keep the node list's length and ids (rewriting only texts) and
keep all edges, and `update_existing_canvas.main` keeps the loaded nodes
unchanged as a prefix — but `update_existing_canvas.main` deletes all
edges (`canvas_data["edges"] = []`). -/
theorem claim_C4_no_node_deletion (fs : FS) (sigma : List Str → List Str)
    (ids : Nat → Str) (doc : Canvas) :
    (update_all_nodes fs doc).1.edges = doc.edges ∧
    (update_all_nodes fs doc).1.nodes.length = doc.nodes.length ∧
    (∀ i : Nat, ((update_all_nodes fs doc).1.nodes[i]?).map CNode.id
      = (doc.nodes[i]?).map CNode.id) ∧
    (update_node_titles_main fs doc).1.edges = doc.edges ∧
    (update_node_titles_main fs doc).1.nodes.length = doc.nodes.length ∧
    (∀ i : Nat, ((update_node_titles_main fs doc).1.nodes[i]?).map CNode.id
      = (doc.nodes[i]?).map CNode.id) ∧
    (update_existing_canvas_main sigma ids doc).nodes.take doc.nodes.length = doc.nodes ∧
    (update_existing_canvas_main sigma ids doc).edges = [] := by
  refine ⟨rfl, by simp [update_all_nodes], ?_, rfl, by simp [update_node_titles_main], ?_,
    ?_, rfl⟩
  · intro i
    show ((doc.nodes.map (fun n => (processNodeUA fs n).1))[i]?).map CNode.id
      = (doc.nodes[i]?).map CNode.id
    rw [List.getElem?_map]
    cases doc.nodes[i]? with
    | none => rfl
    | some n => simp [processNodeUA_id]
  · intro i
    show ((doc.nodes.map (fun n => (processNodeUNT fs n).1))[i]?).map CNode.id
      = (doc.nodes[i]?).map CNode.id
    rw [List.getElem?_map]
    cases doc.nodes[i]? with
    | none => rfl
    | some n => simp [processNodeUNT_id]
  · simp [update_existing_canvas_main, List.take_left]

/-- The unparseable-node branch of the `update_all_nodes` loop: node kept,
warning printed. -/
theorem processNodeUA_skip (fs : FS) (n : CNode) (ht : n.ntype = tl "text")
    (he : extractClassNameUA (pyStrip n.text) = []) :
    processNodeUA fs n = (n, [warnNoClassName (pyStrip n.text)]) := by
  unfold processNodeUA
  rw [if_neg (by simp [ht]), if_pos he]

/-- The unparseable-node branch of the `update_node_titles` loop. -/
theorem processNodeUNT_skip (fs : FS) (n : CNode) (ht : n.ntype = tl "text")
    (he : extractClassNameUNT (pyStrip n.text) = []) :
    processNodeUNT fs n = (n, [warnNoClassName (pyStrip n.text)]) := by
  unfold processNodeUNT
  rw [if_neg (by simp [ht]), if_pos he]

/-- Claim C5: a text node from which none of the three patterns extracts a
class name is skipped by both update scripts — its text is unchanged in
the written document — and the warning line is printed to stdout. -/
theorem claim_C5_skip_unparseable (fs : FS) (doc : Canvas) (i : Nat) (node : CNode)
    (hn : doc.nodes[i]? = some node) (ht : node.ntype = tl "text") :
    (extractClassNameUA (pyStrip node.text) = [] →
      ((update_all_nodes fs doc).1.nodes[i]?).map CNode.text = some node.text ∧
      warnNoClassName (pyStrip node.text) ∈ (update_all_nodes fs doc).2) ∧
    (extractClassNameUNT (pyStrip node.text) = [] →
      ((update_node_titles_main fs doc).1.nodes[i]?).map CNode.text = some node.text ∧
      warnNoClassName (pyStrip node.text) ∈ (update_node_titles_main fs doc).2) := by
  have hmem : node ∈ doc.nodes := by
    have := List.getElem?_eq_some_iff.mp hn
    obtain ⟨hlt, hget⟩ := this
    exact hget ▸ List.getElem_mem hlt
  constructor
  · intro he
    constructor
    · show ((doc.nodes.map (fun n => (processNodeUA fs n).1))[i]?).map CNode.text
        = some node.text
      rw [List.getElem?_map, hn]
      simp [processNodeUA_skip fs node ht he]
    · show warnNoClassName (pyStrip node.text)
        ∈ (doc.nodes.map (fun n => (processNodeUA fs n).2)).flatten
      rw [List.mem_flatten]
      refine ⟨[warnNoClassName (pyStrip node.text)], ?_, List.mem_singleton.mpr rfl⟩
      rw [List.mem_map]
      exact ⟨node, hmem, by rw [processNodeUA_skip fs node ht he]⟩
  · intro he
    constructor
    · show ((doc.nodes.map (fun n => (processNodeUNT fs n).1))[i]?).map CNode.text
        = some node.text
      rw [List.getElem?_map, hn]
      simp [processNodeUNT_skip fs node ht he]
    · show warnNoClassName (pyStrip node.text)
        ∈ (doc.nodes.map (fun n => (processNodeUNT fs n).2)).flatten
      rw [List.mem_flatten]
      refine ⟨[warnNoClassName (pyStrip node.text)], ?_, List.mem_singleton.mpr rfl⟩
      rw [List.mem_map]
      exact ⟨node, hmem, by rw [processNodeUNT_skip fs node ht he]⟩

/-- Claim C5 witness: the empty-text node of `docC5` is skipped with a
warning by both scripts. -/
theorem claim_C5_witness :
    (((update_all_nodes fsEmpty docC5).1.nodes[0]?).map CNode.text
        = some nodeC5.text ∧
      warnNoClassName (pyStrip nodeC5.text) ∈ (update_all_nodes fsEmpty docC5).2) ∧
    (((update_node_titles_main fsEmpty docC5).1.nodes[0]?).map CNode.text
        = some nodeC5.text ∧
      warnNoClassName (pyStrip nodeC5.text) ∈ (update_node_titles_main fsEmpty docC5).2) := by
  have h := claim_C5_skip_unparseable fsEmpty docC5 0 nodeC5 rfl rfl
  have hua : extractClassNameUA (pyStrip nodeC5.text) = [] := by
    simp [nodeC5, extractClassNameUA, pyStrip, cleanFirstLineUA, searchHashNameDotH,
      searchStarName, splitNl, replaceAll, replaceAllGo, tl]
  have hunt : extractClassNameUNT (pyStrip nodeC5.text) = [] := by
    simp [nodeC5, extractClassNameUNT, pyStrip, cleanFirstLineUNT, searchHashNameDotH,
      searchStarName, splitNl, replaceAll, replaceAllGo, tl]
  exact ⟨h.1 hua, h.2 hunt⟩

/-- Elements of `extendTo8 r ext` come from `r` or from `ext`. -/
theorem extendTo8_mem {r ext : List Str} {m : Str} (h : m ∈ extendTo8 r ext) :
    m ∈ r ∨ m ∈ ext := by
  unfold extendTo8 at h
  split at h
  · rcases List.mem_append.mp h with h | h
    · exact Or.inl h
    · exact Or.inr (List.mem_of_mem_take h)
  · exact Or.inl h

/-- `extendTo8` keeps a non-empty first component non-empty. -/
theorem extendTo8_ne_nil {r ext : List Str} (h : r ≠ []) : extendTo8 r ext ≠ [] := by
  unfold extendTo8
  split
  · intro hc
    exact h (List.append_eq_nil.mp hc).1
  · exact h

/-- `extendTo8` with an empty first component takes up to eight elements
of the second. -/
theorem extendTo8_nil_left (ext : List Str) : extendTo8 [] ext = ext.take 8 := by
  unfold extendTo8
  simp

/-- Elements of `kimCombine` come from the scanned method list. -/
theorem kimCombine_mem {all : List Str} {m : Str} (h : m ∈ kimCombine all) :
    m ∈ all := by
  unfold kimCombine at h
  rcases extendTo8_mem h with h | h
  · rcases extendTo8_mem h with h | h
    · exact (List.mem_filter.mp (List.mem_of_mem_take h)).1
    · exact (List.mem_filter.mp h).1
  · exact (List.mem_filter.mp h).1

/-- A `take n` has at most `n` elements. -/
theorem length_take_le (l : List Str) (n : Nat) : (l.take n).length ≤ n := by
  rw [List.length_take]
  exact min_le_left _ _

/-- A positive `take` of a non-empty list is non-empty. -/
theorem take_pos_ne_nil {l : List Str} {n : Nat} (h : l ≠ []) (hn : n ≠ 0) :
    l.take n ≠ [] := by
  simp [List.take_eq_nil_iff, h, hn]

/-- Claim C8: both copies of `get_key_interaction_methods` return at most
eight names, every returned name comes from the input list, and the
selection is non-empty whenever the input is; `add_shell_nodes.get_key_methods`
satisfies the same bounds on non-empty inputs (on an empty input it falls
back to the curated method table of the class instead). -/
theorem claim_C8_bounded_selection (class_name : Str) (all : List Str)
    (info : ShellInfo) :
    (get_key_interaction_methods class_name all).length ≤ 8 ∧
    (∀ m ∈ get_key_interaction_methods class_name all, m ∈ all) ∧
    (all ≠ [] → get_key_interaction_methods class_name all ≠ []) ∧
    (get_key_methods all info).length ≤ 8 ∧
    (all ≠ [] → ∀ m ∈ get_key_methods all info, m ∈ all) ∧
    (all ≠ [] → get_key_methods all info ≠ []) := by
  refine ⟨?_, ?_, ?_, ?_, ?_, ?_⟩
  · unfold get_key_interaction_methods
    split
    · simp
    · split
      · exact length_take_le _ _
      · exact length_take_le _ _
  · intro m hm
    unfold get_key_interaction_methods at hm
    split at hm
    · exact absurd hm (List.not_mem_nil m)
    · split at hm
      · exact List.mem_of_mem_take (List.mem_of_mem_take hm)
      · exact kimCombine_mem (List.mem_of_mem_take hm)
  · intro hne
    unfold get_key_interaction_methods
    rw [if_neg hne]
    split
    · exact take_pos_ne_nil (take_pos_ne_nil hne (by decide)) (by decide)
    · rename_i hk
      exact take_pos_ne_nil hk (by decide)
  · unfold get_key_methods
    split
    · exact length_take_le _ _
    · exact length_take_le _ _
  · intro hne m hm
    unfold get_key_methods at hm
    rw [if_neg hne] at hm
    rcases extendTo8_mem (List.mem_of_mem_take hm) with h | h
    · exact (List.mem_filter.mp (List.mem_of_mem_take h)).1
    · exact (List.mem_filter.mp h).1
  · intro hne
    unfold get_key_methods
    rw [if_neg hne]
    apply take_pos_ne_nil ?_ (by decide)
    cases hall : all with
    | nil => exact absurd hall hne
    | cons a t =>
      by_cases hk : isKwAS a = true
      · apply extendTo8_ne_nil
        apply take_pos_ne_nil ?_ (by decide)
        intro hc
        have ha : a ∈ (a :: t).filter isKwAS :=
          List.mem_filter.mpr ⟨List.mem_cons_self _ _, hk⟩
        rw [hc] at ha
        exact absurd ha (List.not_mem_nil a)
      · by_cases hr : ((a :: t).filter isKwAS).take 6 = []
        · rw [hr, extendTo8_nil_left]
          apply take_pos_ne_nil ?_ (by decide)
          intro hc
          have ha : a ∈ (a :: t).filter (fun m => !isKwAS m) :=
            List.mem_filter.mpr ⟨List.mem_cons_self _ _, by simp [hk]⟩
          rw [hc] at ha
          exact absurd ha (List.not_mem_nil a)
        · exact extendTo8_ne_nil hr

/-- Claim C8 witness: on the concrete method list `["connect"]` both
selectors return a non-empty selection. -/
theorem claim_C8_witness :
    get_key_interaction_methods (tl "A") [tl "connect"] ≠ [] ∧
    get_key_methods [tl "connect"] ⟨tl "d", false, tl "f", [tl "m"]⟩ ≠ [] :=
  ⟨(claim_C8_bounded_selection (tl "A") [tl "connect"]
      ⟨tl "d", false, tl "f", [tl "m"]⟩).2.2.1 (by decide),
   (claim_C8_bounded_selection (tl "A") [tl "connect"]
      ⟨tl "d", false, tl "f", [tl "m"]⟩).2.2.2.2.2 (by decide)⟩

/-- A word character is not Python whitespace. -/
theorem isPyWord_not_space {c : Char} (h : isPyWord c = true) : isPySpace c = false := by
  by_contra hc
  have hs : isPySpace c = true := by
    revert hc
    cases isPySpace c <;> simp
  have hc6 : c = ' ' ∨ c = '\t' ∨ c = '\n' ∨ c = '\r' ∨ c = '\x0b' ∨ c = '\x0c' := by
    simpa [isPySpace, or_assoc] using hs
  rcases hc6 with h1 | h1 | h1 | h1 | h1 | h1 <;> subst h1 <;> exact absurd h (by decide)

/-- Splitting an all-word chunk followed by a non-word character:
`takeWhile` keeps exactly the chunk and `dropWhile` exactly the rest. -/
theorem takeWhile_word_append : ∀ (name rest : Str),
    (∀ c ∈ name, isPyWord c = true) →
    (∀ d, rest.head? = some d → isPyWord d = false) →
    (name ++ rest).takeWhile isPyWord = name ∧
    (name ++ rest).dropWhile isPyWord = rest := by
  intro name
  induction name with
  | nil =>
    intro rest _ hr
    simp only [List.nil_append]
    cases rest with
    | nil => exact ⟨rfl, rfl⟩
    | cons d r =>
      have hd := hr d rfl
      constructor
      · simp [List.takeWhile_cons, hd]
      · simp [List.dropWhile_cons, hd]
  | cons c cs ih =>
    intro rest hw hr
    have hc := hw c (List.mem_cons_self _ _)
    have ihh := ih rest (fun x hx => hw x (List.mem_cons_of_mem _ hx)) hr
    constructor
    · simp only [List.cons_append, List.takeWhile_cons, hc, if_true]
      rw [ihh.1]
    · simp only [List.cons_append, List.dropWhile_cons, hc, if_true]
      exact ihh.2

/-- The title scanner `#\s*(\w+)\.(?:cpp/)?h` on a string starting with
`# `, a word-character name and a `.cpp/h`/`.h` tail recovers the name. -/
theorem searchHashNameDotH_at (name tail : Str) (h1 : name ≠ [])
    (hw : ∀ c ∈ name, isPyWord c = true)
    (hsuf : (tl ".cpp/h").isPrefixOf tail = true ∨ (tl ".h").isPrefixOf tail = true) :
    searchHashNameDotH ('#' :: ' ' :: (name ++ tail)) = some name := by
  have hd : ∀ d, tail.head? = some d → isPyWord d = false := by
    intro d hdd
    rcases hsuf with hp | hp
    · rcases List.isPrefixOf_iff_prefix.mp hp with ⟨t, ht⟩
      have hh : tail.head? = some '.' := by rw [← ht]; rfl
      rw [hh] at hdd
      cases hdd
      decide
    · rcases List.isPrefixOf_iff_prefix.mp hp with ⟨t, ht⟩
      have hh : tail.head? = some '.' := by rw [← ht]; rfl
      rw [hh] at hdd
      cases hdd
      decide
  have hskip : skipWs (' ' :: (name ++ tail)) = name ++ tail := by
    cases hn : name with
    | nil => exact absurd hn h1
    | cons c cs =>
      have hc := hw c (hn ▸ List.mem_cons_self _ _)
      have hns := isPyWord_not_space hc
      show (' ' :: (c :: cs ++ tail)).dropWhile isPySpace = c :: cs ++ tail
      have hsp : isPySpace ' ' = true := by decide
      simp [List.dropWhile_cons, hsp, hns]
  have hspan := takeWhile_word_append name tail hw hd
  have hrun : wordRun (name ++ tail) = name := hspan.1
  have hrest : wordRest (name ++ tail) = tail := hspan.2
  simp only [searchHashNameDotH]
  rw [hskip, hrun, hrest]
  have hcond : name ≠ [] ∧
      ((tl ".cpp/h").isPrefixOf tail = true ∨ (tl ".h").isPrefixOf tail = true) :=
    ⟨h1, hsuf⟩
  simp [hcond]
  intro hA hB
  rcases hsuf with hp | hp
  · exact absurd (List.isPrefixOf_iff_prefix.mp hp) hA
  · exact absurd (List.isPrefixOf_iff_prefix.mp hp) hB

/-- Joining at least two lines: the first line followed by a newline. -/
theorem joinNl_cons2 (a b : Str) (l : List Str) :
    joinNl (a :: b :: l) = a ++ '\n' :: joinNl (b :: l) := rfl

/-- Claim C10: for a non-empty class name of word characters, the title
pattern `#\s*(\w+)\.(?:cpp/)?h` applied to the node text built by
`update_all_nodes.format_node_text` recovers exactly the class name, for
both the `.cpp/h` and the `.h` title. -/
theorem claim_C10_title_roundtrip (class_name : Str) (methods : List Str)
    (has_cpp : Bool) (desc : Str) (h1 : class_name ≠ [])
    (hw : ∀ c ∈ class_name, isPyWord c = true) :
    searchHashNameDotH (format_node_text_UA class_name methods has_cpp desc)
      = some class_name := by
  obtain ⟨tail, hfmt⟩ : ∃ tail, format_node_text_UA class_name methods has_cpp desc
      = titleLine class_name has_cpp ++ ('\n' :: tail) := ⟨_, joinNl_cons2 _ _ _⟩
  rw [hfmt]
  show searchHashNameDotH
      (((tl "# " ++ class_name) ++ (if has_cpp then tl ".cpp/h" else tl ".h"))
        ++ ('\n' :: tail)) = some class_name
  rw [List.append_assoc, List.append_assoc]
  refine searchHashNameDotH_at class_name _ h1 hw ?_
  cases has_cpp
  · right
    exact List.isPrefixOf_iff_prefix.mpr (List.prefix_append _ _)
  · left
    exact List.isPrefixOf_iff_prefix.mpr (List.prefix_append _ _)

/-- Claim C10 witness: the concrete class name `Clock` round-trips through
the formatted node text. -/
theorem claim_C10_witness :
    searchHashNameDotH (format_node_text_UA (tl "Clock") [] false (tl "D"))
      = some (tl "Clock") :=
  claim_C10_title_roundtrip (tl "Clock") [] false (tl "D") (by decide) (by decide)

/-- Claim C9 counterexample: running `add_shell_nodes` a second time over
its own output does not find every shell class already present — the
`Shell` base class is skipped by the creation loop, so no run ever writes
a `# Shell.`-titled node. -/
theorem claim_C9_counterexample :
    ¬ ∀ name ∈ shellClassNames,
        name ∈ existingClasses
          (add_shell_nodes fsEmpty idsW (add_shell_nodes fsEmpty idsW ⟨[], [], none⟩)).nodes := by
  decide

/-- The `existing_classes` fold is the per-node harvest `ecF`, appended
to the accumulator. -/
theorem existingClasses_go : ∀ (nodes : List CNode) (acc : List Str),
    nodes.foldl (fun acc n =>
      if n.ntype = tl "text" then
        match searchHashNameDot n.text with
        | some m => acc ++ [m]
        | none => acc
      else acc) acc
    = acc ++ nodes.filterMap ecF := by
  intro nodes
  induction nodes with
  | nil => intro acc; simp
  | cons n t ih =>
    intro acc
    simp only [List.foldl_cons]
    by_cases h : n.ntype = tl "text"
    · cases hs : searchHashNameDot n.text with
      | none =>
        rw [if_pos h, ih]
        have he : ecF n = none := by simp [ecF, h, hs]
        simp [List.filterMap_cons, he]
      | some m =>
        rw [if_pos h, ih]
        have he : ecF n = some m := by simp [ecF, h, hs]
        simp [List.filterMap_cons, he]
    · rw [if_neg h, ih]
      have he : ecF n = none := by simp [ecF, h]
      simp [List.filterMap_cons, he]

/-- `existing_classes` as a `filterMap`. -/
theorem existingClasses_eq (nodes : List CNode) :
    existingClasses nodes = nodes.filterMap ecF := by
  unfold existingClasses
  rw [existingClasses_go]
  rfl

/-- A text node whose title matches contributes its class name to
`existing_classes`. -/
theorem mem_existingClasses_of_node {nodes : List CNode} {n : CNode} {x : Str}
    (hn : n ∈ nodes) (ht : n.ntype = tl "text")
    (hs : searchHashNameDot n.text = some x) : x ∈ existingClasses nodes := by
  rw [existingClasses_eq]
  exact List.mem_filterMap.mpr ⟨n, hn, by simp [ecF, ht, hs]⟩

/-- `existing_classes` is monotone under appending nodes. -/
theorem existingClasses_append_left {A : List CNode} (B : List CNode) {x : Str}
    (h : x ∈ existingClasses A) : x ∈ existingClasses (A ++ B) := by
  rw [existingClasses_eq] at h ⊢
  rw [List.filterMap_append]
  exact List.mem_append_left _ h

/-- The class-name scanner `#\s*(\w+)\.` on a string starting with `# `,
a word-character name and a dot recovers the name. -/
theorem searchHashNameDot_at (name tail : Str) (h1 : name ≠ [])
    (hw : ∀ c ∈ name, isPyWord c = true) (hdot : tail.head? = some '.') :
    searchHashNameDot ('#' :: ' ' :: (name ++ tail)) = some name := by
  have hd : ∀ d, tail.head? = some d → isPyWord d = false := by
    intro d hdd
    rw [hdot] at hdd
    cases hdd
    decide
  have hskip : skipWs (' ' :: (name ++ tail)) = name ++ tail := by
    cases hn : name with
    | nil => exact absurd hn h1
    | cons c cs =>
      have hc := hw c (hn ▸ List.mem_cons_self _ _)
      have hns := isPyWord_not_space hc
      show (' ' :: (c :: cs ++ tail)).dropWhile isPySpace = c :: cs ++ tail
      have hsp : isPySpace ' ' = true := by decide
      simp [List.dropWhile_cons, hsp, hns]
  have hspan := takeWhile_word_append name tail hw hd
  have hrun : wordRun (name ++ tail) = name := hspan.1
  have hrest : wordRest (name ++ tail) = tail := hspan.2
  simp only [searchHashNameDot]
  rw [hskip, hrun, hrest]
  have hcond : name ≠ [] ∧ tail.head? = some '.' := ⟨h1, hdot⟩
  simp [hcond]

/-- The `add_shell_nodes` node text starts with a `# Name.`-shaped title,
so the class-name scanner recovers the class name. -/
theorem format_AS_title (name desc : Str) (ms : List Str) (hc : Bool)
    (h1 : name ≠ []) (hw : ∀ c ∈ name, isPyWord c = true) :
    searchHashNameDot (format_node_text_AS name desc ms hc) = some name := by
  obtain ⟨tail, hfmt⟩ : ∃ tail, format_node_text_AS name desc ms hc
      = titleLine name hc ++ ('\n' :: tail) := ⟨_, joinNl_cons2 _ _ _⟩
  rw [hfmt]
  show searchHashNameDot
      (((tl "# " ++ name) ++ (if hc then tl ".cpp/h" else tl ".h"))
        ++ ('\n' :: tail)) = some name
  rw [List.append_assoc, List.append_assoc]
  refine searchHashNameDot_at name _ h1 hw ?_
  cases hc
  · rfl
  · rfl

/-- Title recovery for a created shell node. -/
theorem mkShellNode_title (fs : FS) (ids : Nat → Str) (sx sy : Int) (k i : Nat)
    (name : Str) (info : ShellInfo) (h1 : name ≠ [])
    (hw : ∀ c ∈ name, isPyWord c = true) :
    searchHashNameDot (mkShellNode fs ids sx sy k i name info).text = some name :=
  format_AS_title name info.description _ _ h1 hw

/-- A successful `lookupP` means the key occurs in the table. -/
theorem lookupP_mem {α : Type} : ∀ (t : List (Str × α)) (n : Str) (v : α),
    lookupP t n = some v → n ∈ t.map Prod.fst := by
  intro t
  induction t with
  | nil => intro n v h; simp [lookupP] at h
  | cons p r ih =>
    obtain ⟨k, w⟩ := p
    intro n v h
    simp only [lookupP] at h
    by_cases hk : n = k
    · subst hk
      exact List.mem_cons_self _ _
    · rw [if_neg hk] at h
      exact List.mem_cons_of_mem _ (ih n v h)

/-- Every `SHELL_CLASSES` key is a non-empty word-character name with a
table entry. -/
theorem shellName_facts {name : Str} (h : name ∈ shellClassNames) :
    name ≠ [] ∧ (∀ c ∈ name, isPyWord c = true) ∧
      lookupP SHELL_CLASSES name ≠ none := by
  have h5 : name = tl "Shell" ∨ name = tl "EditorShell" ∨ name = tl "CommandShell"
      ∨ name = tl "CodeShell" ∨ name = tl "CLIShell" := by
    simpa [shellClassNames, SHELL_CLASSES] using h
  rcases h5 with h1 | h1 | h1 | h1 | h1 <;> subst h1 <;>
    exact ⟨by decide, by decide, by decide⟩

/-- The creation fold keeps the already-built nodes. -/
theorem addShellFold_sub (fs : FS) (ids : Nat → Str) (sx sy : Int) :
    ∀ (l : List (Nat × Str)) (st : List CNode) (n : CNode), n ∈ st →
      n ∈ l.foldl (addShellStep fs ids sx sy) st := by
  intro l
  induction l with
  | nil => intro st n h; exact h
  | cons p t ih =>
    intro st n h
    rw [List.foldl_cons]
    apply ih
    unfold addShellStep
    split
    · exact h
    · split
      · exact h
      · exact List.mem_append_left _ h

/-- Every node in the creation fold is an initial node or a created shell
node for a non-`Shell` name of the processed list. -/
theorem addShellFold_shape (fs : FS) (ids : Nat → Str) (sx sy : Int) :
    ∀ (l : List (Nat × Str)) (st : List CNode) (n : CNode),
      n ∈ l.foldl (addShellStep fs ids sx sy) st →
      n ∈ st ∨ ∃ k i name info, (i, name) ∈ l ∧ name ≠ tl "Shell" ∧
        lookupP SHELL_CLASSES name = some info ∧
        n = mkShellNode fs ids sx sy k i name info := by
  intro l
  induction l with
  | nil => intro st n h; exact Or.inl h
  | cons p t ih =>
    intro st n h
    rw [List.foldl_cons] at h
    rcases ih _ n h with h1 | ⟨k, i, name, info, hmem, hns, hlk, hn⟩
    · unfold addShellStep at h1
      split at h1
      · exact Or.inl h1
      · rename_i hns
        split at h1
        · exact Or.inl h1
        · rename_i info hlk
          rcases List.mem_append.mp h1 with h2 | h2
          · exact Or.inl h2
          · right
            refine ⟨st.length, p.1, p.2, info, List.mem_cons_self _ _, hns, hlk, ?_⟩
            exact List.mem_singleton.mp h2
    · exact Or.inr ⟨k, i, name, info, List.mem_cons_of_mem _ hmem, hns, hlk, hn⟩

/-- A non-`Shell` name with a table entry yields a created node in the
fold. -/
theorem addShellFold_creates (fs : FS) (ids : Nat → Str) (sx sy : Int) :
    ∀ (l : List (Nat × Str)) (st : List CNode) (i : Nat) (name : Str)
      (info : ShellInfo),
      (i, name) ∈ l → name ≠ tl "Shell" →
      lookupP SHELL_CLASSES name = some info →
      ∃ n ∈ l.foldl (addShellStep fs ids sx sy) st, ∃ k,
        n = mkShellNode fs ids sx sy k i name info := by
  intro l
  induction l with
  | nil => intro st i name info h; exact absurd h (List.not_mem_nil _)
  | cons p t ih =>
    intro st i name info hmem hns hlk
    rw [List.foldl_cons]
    rcases List.mem_cons.mp hmem with heq | hmem'
    · have hstep : addShellStep fs ids sx sy st p
          = st ++ [mkShellNode fs ids sx sy st.length i name info] := by
        subst heq
        simp [addShellStep, hns, hlk]
      rw [hstep]
      refine ⟨mkShellNode fs ids sx sy st.length i name info, ?_, st.length, rfl⟩
      apply addShellFold_sub
      exact List.mem_append_right _ (List.mem_singleton.mpr rfl)
    · exact ih (addShellStep fs ids sx sy st p) i name info hmem' hns hlk

/-- A list member appears in its enumeration. -/
theorem mem_enumFrom_of_mem : ∀ (l : List Str) (a : Str) (k : Nat), a ∈ l →
    ∃ i, (i, a) ∈ l.enumFrom k := by
  intro l
  induction l with
  | nil => intro a k h; exact absurd h (List.not_mem_nil _)
  | cons b t ih =>
    intro a k h
    rcases List.mem_cons.mp h with h1 | h1
    · subst h1
      exact ⟨k, List.mem_cons_self _ _⟩
    · rcases ih a (k + 1) h1 with ⟨i, hi⟩
      exact ⟨i, List.mem_cons_of_mem _ hi⟩

/-- The second component of an enumeration entry is a list member. -/
theorem snd_mem_of_mem_enumFrom : ∀ (l : List Str) (p : Nat × Str) (k : Nat),
    p ∈ l.enumFrom k → p.2 ∈ l := by
  intro l
  induction l with
  | nil => intro p k h; exact absurd h (List.not_mem_nil _)
  | cons b t ih =>
    intro p k h
    rcases List.mem_cons.mp h with h1 | h1
    · subst h1
      exact List.mem_cons_self _ _
    · exact List.mem_cons_of_mem _ (ih p (k + 1) h1)

/-- The creation fold over a list of `Shell` entries creates nothing. -/
theorem addShellFold_shell_only (fs : FS) (ids : Nat → Str) (sx sy : Int) :
    ∀ (l : List (Nat × Str)) (st : List CNode), (∀ p ∈ l, p.2 = tl "Shell") →
      l.foldl (addShellStep fs ids sx sy) st = st := by
  intro l
  induction l with
  | nil => intro st _; rfl
  | cons p t ih =>
    intro st h
    rw [List.foldl_cons]
    have hp : addShellStep fs ids sx sy st p = st := by
      unfold addShellStep
      rw [if_pos (h p (List.mem_cons_self _ _))]
    rw [hp]
    exact ih st (fun q hq => h q (List.mem_cons_of_mem _ hq))

/-- Claim C9 (amended): every node created by `add_shell_nodes` carries a
`# ClassName.` title that the existing-class detector recovers, for a
non-`Shell` shell class; a second run over the output therefore creates
zero nodes and leaves the node list unchanged — but the `Shell` base
class itself is never created (the loop skips it), so the second run does
not find every shell class present. -/
theorem claim_C9_second_run_adds_nothing (fs fs2 : FS) (ids ids2 : Nat → Str)
    (doc : Canvas) :
    (∀ n ∈ addShellNewNodes fs ids doc, n.ntype = tl "text" ∧
      ∃ name, name ∈ shellClassNames ∧ name ≠ tl "Shell" ∧
        searchHashNameDot n.text = some name) ∧
    addShellNewNodes fs2 ids2 (add_shell_nodes fs ids doc) = [] ∧
    (add_shell_nodes fs2 ids2 (add_shell_nodes fs ids doc)).nodes
      = (add_shell_nodes fs ids doc).nodes := by
  have hB : addShellNewNodes fs2 ids2 (add_shell_nodes fs ids doc) = [] := by
    apply addShellFold_shell_only
    intro p hp
    have hmem2 := snd_mem_of_mem_enumFrom _ p 0 hp
    rcases List.mem_filter.mp hmem2 with ⟨hsh, hnc⟩
    simp at hnc
    by_contra hne
    have hin : p.2 ∈ existingClasses (add_shell_nodes fs ids doc).nodes := by
      by_cases hex : p.2 ∈ existingClasses doc.nodes
      · exact existingClasses_append_left _ hex
      · have hmiss : p.2 ∈ shellClassNames.filter
            (fun n => !((existingClasses doc.nodes).contains n)) :=
          List.mem_filter.mpr ⟨hsh, by simp [hex]⟩
        rcases mem_enumFrom_of_mem _ _ 0 hmiss with ⟨i, hi⟩
        have hf := shellName_facts hsh
        obtain ⟨info, hlk⟩ : ∃ info, lookupP SHELL_CLASSES p.2 = some info := by
          cases hl : lookupP SHELL_CLASSES p.2 with
          | none => exact absurd hl hf.2.2
          | some info => exact ⟨info, rfl⟩
        rcases addShellFold_creates fs ids (shellPosOr doc).1 (shellPosOr doc).2
          _ [] i p.2 info hi hne hlk with ⟨n, hn, k, hk⟩
        have hmem1 : n ∈ (add_shell_nodes fs ids doc).nodes :=
          List.mem_append_right _ hn
        subst hk
        exact mem_existingClasses_of_node hmem1 rfl
          (mkShellNode_title _ _ _ _ _ _ _ _ hf.1 hf.2.1)
    exact hnc hin
  refine ⟨?_, hB, ?_⟩
  · intro n hn
    rcases addShellFold_shape fs ids (shellPosOr doc).1 (shellPosOr doc).2
        _ [] n hn with h1 | ⟨k, i, name, info, hmem, hns, hlk, hnn⟩
    · exact absurd h1 (List.not_mem_nil n)
    · have hname : name ∈ shellClassNames := lookupP_mem _ _ _ hlk
      have hf := shellName_facts hname
      subst hnn
      exact ⟨rfl, name, hname, hns,
        mkShellNode_title _ _ _ _ _ _ _ _ hf.1 hf.2.1⟩
  · show (add_shell_nodes fs ids doc).nodes
        ++ addShellNewNodes fs2 ids2 (add_shell_nodes fs ids doc)
      = (add_shell_nodes fs ids doc).nodes
    rw [hB, List.append_nil]

/-- Claim C9 witness: concretely, a second run over the output of a run
on the empty canvas creates zero nodes. -/
theorem claim_C9_witness :
    addShellNewNodes fsEmpty idsW (add_shell_nodes fsEmpty idsW ⟨[], [], none⟩) = [] ∧
    (add_shell_nodes fsEmpty idsW (add_shell_nodes fsEmpty idsW ⟨[], [], none⟩)).nodes
      = (add_shell_nodes fsEmpty idsW ⟨[], [], none⟩).nodes :=
  ⟨(claim_C9_second_run_adds_nothing fsEmpty fsEmpty idsW idsW ⟨[], [], none⟩).2.1,
   (claim_C9_second_run_adds_nothing fsEmpty fsEmpty idsW idsW ⟨[], [], none⟩).2.2⟩

/-- The running depth over the single class-start line. -/
theorem depthFrom_self (ls : List Str) (j : Nat) (hj : j < ls.length) :
    depthFrom ls j j = braceDelta (ls.get ⟨j, hj⟩) := by
  unfold depthFrom
  rw [List.drop_take, Nat.add_sub_cancel_left]
  rw [List.take_one, List.head?_drop, List.getElem?_eq_getElem hj]
  simp

/-- The running depth extends by one line's brace delta. -/
theorem depthFrom_succ (ls : List Str) (j k : Nat) (hj : j ≤ k)
    (hk : k + 1 < ls.length) :
    depthFrom ls j (k + 1)
      = depthFrom ls j k + braceDelta (ls.get ⟨k + 1, hk⟩) := by
  unfold depthFrom
  rw [List.take_succ, List.getElem?_eq_getElem hk]
  rw [List.drop_append_of_le_length (by rw [List.length_take]; omega)]
  simp

/-- The running depth at `t`, stepping back one line. -/
theorem depthFrom_succ' (ls : List Str) (j t : Nat) (hj : j < t)
    (ht : t < ls.length) :
    depthFrom ls j t = depthFrom ls j (t - 1) + braceDelta (ls.get ⟨t, ht⟩) := by
  obtain ⟨k, rfl⟩ : ∃ k, t = k + 1 := ⟨t - 1, by omega⟩
  simp only [Nat.add_sub_cancel]
  exact depthFrom_succ ls j k (by omega) ht

/-- Extending an open-class context over a non-class-start line that keeps
the depth positive. -/
theorem ClassCtx_extend {ls : List Str} {j t : Nat} {d : Int}
    (ht : t < ls.length) (hc : ClassCtx ls j t d)
    (h1 : isClassStartLine (ls.get ⟨t, ht⟩) = false)
    (hd : 0 < d + braceDelta (ls.get ⟨t, ht⟩)) :
    ClassCtx ls j (t + 1) (d + braceDelta (ls.get ⟨t, ht⟩)) := by
  obtain ⟨hjt, hcs, hnocs, hpos, hdep⟩ := hc
  have hdep' : d + braceDelta (ls.get ⟨t, ht⟩) = depthFrom ls j t := by
    rw [hdep]
    exact (depthFrom_succ' ls j t hjt ht).symm
  refine ⟨by omega, hcs, ?_, ?_, ?_⟩
  · intro k hk hk1 hk2
    by_cases hkt : k = t
    · subst hkt
      exact h1
    · exact hnocs k hk hk1 (by omega)
  · intro k hk1 hk2
    by_cases hkt : k = t
    · subst hkt
      rw [← hdep']
      exact hd
    · exact hpos k hk1 (by omega)
  · rw [hdep']
    rfl

/-- Extending an open-public context over a non-`private:`/`protected:`
line. -/
theorem PubCtx_extend {ls : List Str} {p t : Nat} (ht : t < ls.length)
    (hp : PubCtx ls p t) (h5 : isPrivProtLine (ls.get ⟨t, ht⟩) = false) :
    PubCtx ls p (t + 1) := by
  obtain ⟨hpt, hpub, hnop⟩ := hp
  refine ⟨by omega, hpub, ?_⟩
  intro q hq hq1 hq2
  by_cases hqt : q = t
  · subst hqt
    exact h5
  · exact hnop q hq hq1 (by omega)

/-- One scanner step preserves the region invariant. -/
theorem scanStep_inv (extract : Str → Option Str) (keep : List Str → Str → Bool)
    (ls : List Str) (t : Nat) (ht : t < ls.length) (s : ScanSt)
    (hinv : ScanInv extract ls t s) :
    ScanInv extract ls (t + 1) (scanStep extract keep s (ls.get ⟨t, ht⟩)) := by
  obtain ⟨hC, hP, hA⟩ := hinv
  unfold scanStep
  split
  · rename_i h1
    refine ⟨?_, ?_, hA⟩
    · intro _
      refine ⟨t, Nat.lt_succ_self t, ⟨ht, h1⟩, ?_, ?_, ?_⟩
      · intro k hk hk1 hk2
        omega
      · intro k hk1 hk2
        omega
      · exact (depthFrom_self ls t ht).symm
    · intro _ hpub
      cases hpub
  · rename_i h1
    split
    · rename_i h2
      have h2' : s.inClass = false := by
        revert h2
        cases s.inClass <;> simp
      refine ⟨?_, ?_, hA⟩
      · intro hc
        rw [h2'] at hc
        exact absurd hc (by decide)
      · intro hc _
        rw [h2'] at hc
        exact absurd hc (by decide)
    · rename_i h2
      have h2c : s.inClass = true := by
        revert h2
        cases s.inClass <;> simp
      obtain ⟨j, hCj⟩ := hC h2c
      have h1' : isClassStartLine (ls.get ⟨t, ht⟩) = false := by
        revert h1
        cases isClassStartLine (ls.get ⟨t, ht⟩) <;> simp
      split
      · refine ⟨?_, ?_, hA⟩
        · intro hc
          cases hc
        · intro hc _
          cases hc
      · rename_i h3
        have hd' : 0 < s.depth + braceDelta (ls.get ⟨t, ht⟩) := by omega
        have hCC := ClassCtx_extend ht hCj h1' hd'
        split
        · rename_i h4
          refine ⟨fun _ => ⟨j, hCC⟩, fun _ _ => ⟨j, t, hCj.1, hCC, ?_⟩, hA⟩
          exact ⟨Nat.lt_succ_self t, ⟨ht, h4⟩, fun q hq hq1 hq2 => by omega⟩
        · rename_i h4
          split
          · refine ⟨fun _ => ⟨j, hCC⟩, ?_, hA⟩
            intro _ hpub
            cases hpub
          · rename_i h5
            have h5' : isPrivProtLine (ls.get ⟨t, ht⟩) = false := by
              revert h5
              cases isPrivProtLine (ls.get ⟨t, ht⟩) <;> simp
            split
            · rename_i h6
              obtain ⟨j2, p, hjp, hCj2, hPp⟩ := hP h2c h6
              have hCC2 := ClassCtx_extend ht hCj2 h1' hd'
              have hPP := PubCtx_extend ht hPp h5'
              split
              · rename_i m hm
                by_cases h7 : keep s.acc m = true
                · rw [h7]
                  refine ⟨fun _ => ⟨j2, hCC2⟩,
                    fun _ _ => ⟨j2, p, hjp, hCC2, hPP⟩, ?_⟩
                  intro x hx
                  rcases List.mem_append.mp hx with hx1 | hx1
                  · exact hA x hx1
                  · have hxm := List.mem_singleton.mp hx1
                    subst hxm
                    refine ⟨t, ht, hm, j2, p, hjp, hPp.1, hCj2.2.1, ?_, ?_,
                      hPp.2.1, ?_⟩
                    · intro k hk hk1 hk2
                      exact hCC2.2.2.1 k hk hk1 (by omega)
                    · intro k hk1 hk2
                      exact hCC2.2.2.2.1 k hk1 (by omega)
                    · intro q hq hq1 hq2
                      exact hPp.2.2 q hq hq1 hq2
                · have h7' : keep s.acc m = false := by
                    revert h7
                    cases keep s.acc m <;> simp
                  rw [h7']
                  exact ⟨fun _ => ⟨j2, hCC2⟩,
                    fun _ _ => ⟨j2, p, hjp, hCC2, hPP⟩, hA⟩
              · rename_i hm
                exact ⟨fun _ => ⟨j2, hCC2⟩,
                  fun _ _ => ⟨j2, p, hjp, hCC2, hPP⟩, hA⟩
            · refine ⟨fun _ => ⟨j, hCC⟩, ?_, hA⟩
              intro _ hpub
              cases hpub

/-- Folding the scanner over the remaining lines preserves the invariant. -/
theorem scanFold_inv (extract : Str → Option Str) (keep : List Str → Str → Bool)
    (ls : List Str) :
    ∀ (rest pre : List Str) (s : ScanSt), ls = pre ++ rest →
      ScanInv extract ls pre.length s →
      ScanInv extract ls (pre.length + rest.length)
        (rest.foldl (scanStep extract keep) s) := by
  intro rest
  induction rest with
  | nil =>
    intro pre s _ hinv
    simpa using hinv
  | cons r rs ih =>
    intro pre s hls hinv
    subst hls
    rw [List.foldl_cons]
    have hlen : pre.length < (pre ++ r :: rs).length := by
      rw [List.length_append, List.length_cons]
      omega
    have hget : (pre ++ r :: rs).get ⟨pre.length, hlen⟩ = r := by
      rw [List.get_eq_getElem, List.getElem_append_right (Nat.le_refl _)]
      simp
    have hstep := scanStep_inv extract keep (pre ++ r :: rs) pre.length hlen s hinv
    rw [hget] at hstep
    have happ : pre ++ r :: rs = (pre ++ [r]) ++ rs := by simp
    have hinv' : ScanInv extract (pre ++ r :: rs) (pre ++ [r]).length
        (scanStep extract keep s r) := by
      simpa using hstep
    have hres := ih (pre ++ [r]) (scanStep extract keep s r) happ hinv'
    have hlen2 : (pre ++ [r]).length + rs.length = pre.length + (r :: rs).length := by
      simp only [List.length_append, List.length_cons, List.length_nil]
      omega
    rw [hlen2] at hres
    exact hres

/-- Every name collected by a brace-depth scan satisfies the region
property. -/
theorem scanLines_region (extract : Str → Option Str) (keep : List Str → Str → Bool)
    (lines : List Str) :
    ∀ m ∈ scanLines extract keep lines, RegionProp extract lines m := by
  have h0 : ScanInv extract lines 0 ⟨false, false, 0, []⟩ := by
    refine ⟨?_, ?_, ?_⟩
    · intro hc
      cases hc
    · intro hc _
      cases hc
    · intro m hm
      cases hm
  have hres := scanFold_inv extract keep lines lines [] ⟨false, false, 0, []⟩ rfl h0
  intro m hm
  exact hres.2.2 m hm

/-- Claim C6: every method name returned by the brace-depth scanners of
`add_shell_nodes.extract_public_methods` and
`update_node_titles.extract_public_methods` was extracted from a line
lying inside a class body — the running brace depth since the class-start
line stays positive — strictly after a `public:` line with no intervening
`private:`/`protected:` line. -/
theorem claim_C6_public_region (content : Str) :
    (∀ m ∈ scanPublicAS content,
      RegionProp extractLineAS (splitNl (preprocessAS content)) m) ∧
    (∀ m ∈ scanPublicUNT content,
      RegionProp extractLineUNT (splitNl (preprocessStr content)) m) :=
  ⟨scanLines_region _ _ _, scanLines_region _ _ _⟩

/-- Claim C6 witness: the scanner collects `getFoo` (public) from the
concrete header `hdrC6`, and the region property holds for it. -/
theorem claim_C6_witness :
    tl "getFoo" ∈ scanPublicAS hdrC6 ∧
    RegionProp extractLineAS (splitNl (preprocessAS hdrC6)) (tl "getFoo") := by
  have hm : tl "getFoo" ∈ scanPublicAS hdrC6 := by decide
  exact ⟨hm, (claim_C6_public_region hdrC6).1 (tl "getFoo") hm⟩

/-- Lexicographic string `<` is transitive. -/
theorem strLt_trans : ∀ (x y z : Str), strLt x y = true → strLt y z = true →
    strLt x z = true := by
  intro x
  induction x with
  | nil =>
    intro y z hxy hyz
    cases y with
    | nil => simp [strLt] at hxy
    | cons b bs =>
      cases z with
      | nil => simp [strLt] at hyz
      | cons c cs => simp [strLt]
  | cons a as ih =>
    intro y z hxy hyz
    cases y with
    | nil => simp [strLt] at hxy
    | cons b bs =>
      cases z with
      | nil => simp [strLt] at hyz
      | cons c cs =>
        simp only [strLt] at hxy hyz ⊢
        by_cases h1 : a.toNat < b.toNat
        · by_cases h2 : b.toNat < c.toNat
          · rw [if_pos (by omega)]
          · rw [if_neg h2] at hyz
            by_cases h3 : c.toNat < b.toNat
            · rw [if_pos h3] at hyz
              exact absurd hyz (by decide)
            · rw [if_pos (by omega)]
        · rw [if_neg h1] at hxy
          by_cases h1' : b.toNat < a.toNat
          · rw [if_pos h1'] at hxy
            exact absurd hxy (by decide)
          · rw [if_neg h1'] at hxy
            by_cases h2 : b.toNat < c.toNat
            · rw [if_pos (by omega)]
            · rw [if_neg h2] at hyz
              by_cases h3 : c.toNat < b.toNat
              · rw [if_pos h3] at hyz
                exact absurd hyz (by decide)
              · rw [if_neg h3] at hyz
                rw [if_neg (by omega), if_neg (by omega)]
                exact ih bs cs hxy hyz

/-- Lexicographic string `<` is asymmetric. -/
theorem strLt_asymm : ∀ (x y : Str), strLt x y = true → strLt y x = false := by
  intro x
  induction x with
  | nil =>
    intro y h
    cases y with
    | nil => simp [strLt] at h
    | cons b bs => simp [strLt]
  | cons a as ih =>
    intro y h
    cases y with
    | nil => simp [strLt] at h
    | cons b bs =>
      simp only [strLt] at h ⊢
      by_cases h1 : a.toNat < b.toNat
      · rw [if_neg (by omega), if_pos h1]
      · rw [if_neg h1] at h
        by_cases h2 : b.toNat < a.toNat
        · rw [if_pos h2] at h
          exact absurd h (by decide)
        · rw [if_neg h2] at h
          rw [if_neg (by omega), if_neg (by omega)]
          exact ih bs h

/-- If `x < y` fails, either `y < x` or the strings are equal. -/
theorem strLt_conn : ∀ (x y : Str), strLt x y = false → strLt y x = true ∨ y = x := by
  intro x
  induction x with
  | nil =>
    intro y h
    cases y with
    | nil => exact Or.inr rfl
    | cons b bs => simp [strLt] at h
  | cons a as ih =>
    intro y h
    cases y with
    | nil => exact Or.inl (by simp [strLt])
    | cons b bs =>
      simp only [strLt] at h ⊢
      by_cases h1 : a.toNat < b.toNat
      · rw [if_pos h1] at h
        exact absurd h (by decide)
      · rw [if_neg h1] at h
        by_cases h2 : b.toNat < a.toNat
        · exact Or.inl (by rw [if_pos h2])
        · rw [if_neg h2] at h
          have hab : a = b := by
            have hn : a.toNat = b.toNat := by omega
            exact Char.ext (UInt32.ext hn)
          subst hab
          rcases ih bs h with h3 | h3
          · exact Or.inl (by rw [if_neg (by omega), if_neg (by omega)]; exact h3)
          · exact Or.inr (by rw [h3])

/-- Failing `<` is transitive (the `≤` direction used by the sort key). -/
theorem strLt_false_trans {a b c : Str} (h1 : strLt b a = false)
    (h2 : strLt c b = false) : strLt c a = false := by
  by_contra hc
  have hca : strLt c a = true := by
    revert hc
    cases strLt c a <;> simp
  rcases strLt_conn b a h1 with h3 | h3
  · rcases strLt_conn c b h2 with h4 | h4
    · have h5 : strLt a c = true := strLt_trans a b c h3 h4
      have h6 : strLt c a = false := strLt_asymm a c h5
      rw [hca] at h6
      exact absurd h6 (by decide)
    · subst h4
      rw [h1] at hca
      exact absurd hca (by decide)
  · subst h3
    rw [h2] at hca
    exact absurd hca (by decide)

/-- The sort-key order of `layout_classes` is transitive. -/
theorem umlLe_trans : ∀ a b c : UMLClass, umlLe a b = true → umlLe b c = true →
    umlLe a c = true := by
  intro a b c hab hbc
  unfold umlLe at hab hbc ⊢
  cases ha : a.isAbs <;> cases hb : b.isAbs <;> cases hc : c.isAbs <;>
    simp [ha, hb, hc] at hab hbc ⊢ <;>
    exact strLt_false_trans hab hbc

/-- The sort-key order of `layout_classes` is total. -/
theorem umlLe_total : ∀ a b : UMLClass, umlLe a b || umlLe b a := by
  intro a b
  unfold umlLe
  cases ha : a.isAbs <;> cases hb : b.isAbs <;> simp [ha, hb] <;>
  · by_cases h : strLt b.name a.name = true
    · exact Or.inr (strLt_asymm _ _ h)
    · refine Or.inl ?_
      revert h
      cases strLt b.name a.name <;> simp

/-- An absent key looks up to `none`. -/
theorem lookupP_eq_none {α : Type} : ∀ (t : List (Str × α)) (n : Str),
    n ∉ t.map Prod.fst → lookupP t n = none := by
  intro t
  induction t with
  | nil => intro n _; rfl
  | cons p r ih =>
    obtain ⟨k, v⟩ := p
    intro n hn
    simp only [List.map_cons, List.mem_cons] at hn
    push_neg at hn
    simp only [lookupP]
    rw [if_neg hn.1]
    exact ih n hn.2

/-- A hit in the first block survives appending. -/
theorem lookupP_append_some {α : Type} : ∀ (A B : List (Str × α)) (n : Str) (v : α),
    lookupP A n = some v → lookupP (A ++ B) n = some v := by
  intro A
  induction A with
  | nil => intro B n v h; simp [lookupP] at h
  | cons p r ih =>
    obtain ⟨k, w⟩ := p
    intro B n v h
    simp only [lookupP] at h ⊢
    by_cases hk : n = k
    · rw [if_pos hk] at h ⊢
      exact h
    · rw [if_neg hk] at h ⊢
      exact ih B n v h

/-- A miss in the first block defers to the second. -/
theorem lookupP_append_none {α : Type} : ∀ (A B : List (Str × α)) (n : Str),
    lookupP A n = none → lookupP (A ++ B) n = lookupP B n := by
  intro A
  induction A with
  | nil => intro B n _; rfl
  | cons p r ih =>
    obtain ⟨k, w⟩ := p
    intro B n h
    simp only [lookupP] at h ⊢
    by_cases hk : n = k
    · rw [if_pos hk] at h
      cases h
    · rw [if_neg hk] at h ⊢
      exact ih B n h

/-- A left fold of appends is the flattened map. -/
theorem foldl_append_flatten {α β : Type} (f : α → List β) :
    ∀ (L : List α) (acc : List β),
      L.foldl (fun acc l => acc ++ f l) acc = acc ++ (L.map f).flatten := by
  intro L
  induction L with
  | nil => intro acc; simp
  | cons l t ih =>
    intro acc
    rw [List.foldl_cons, ih]
    simp

/-- Looking up through a flattened block list whose blocks all miss. -/
theorem lookupP_flatten_none {β : Type} (f : Str → List (Str × β)) (nm : Str) :
    ∀ L : List Str, (∀ q ∈ L, lookupP (f q) nm = none) →
      lookupP ((L.map f).flatten) nm = none := by
  intro L
  induction L with
  | nil => intro _; rfl
  | cons l t ih =>
    intro h
    simp only [List.map_cons, List.flatten_cons]
    rw [lookupP_append_none _ _ _ (h l (List.mem_cons_self _ _))]
    exact ih (fun q hq => h q (List.mem_cons_of_mem _ hq))

/-- Looking up through a flattened block list that can only hit in the
block of `lay`. -/
theorem lookupP_flatten_first {β : Type} (f : Str → List (Str × β)) (nm lay : Str) :
    ∀ L : List Str, lay ∈ L → (∀ q ∈ L, q ≠ lay → lookupP (f q) nm = none) →
      lookupP ((L.map f).flatten) nm = lookupP (f lay) nm := by
  intro L
  induction L with
  | nil => intro h; exact absurd h (List.not_mem_nil _)
  | cons l t ih =>
    intro hmem h
    simp only [List.map_cons, List.flatten_cons]
    by_cases hl : l = lay
    · subst hl
      cases hv : lookupP (f l) nm with
      | some v => exact lookupP_append_some _ _ _ _ hv
      | none =>
        rw [lookupP_append_none _ _ _ hv]
        apply lookupP_flatten_none
        intro q hq
        by_cases hq2 : q = l
        · subst hq2
          exact hv
        · exact h q (List.mem_cons_of_mem _ hq) hq2
    · have hmem' : lay ∈ t := by
        rcases List.mem_cons.mp hmem with h1 | h1
        · exact absurd h1.symm hl
        · exact h1
      rw [lookupP_append_none _ _ _ (h l (List.mem_cons_self _ _) hl)]
      exact ih hmem' (fun q hq hq2 => h q (List.mem_cons_of_mem _ hq) hq2)

/-- Generic enumeration membership (second components). -/
theorem snd_mem_of_mem_enumFromP {α : Type} : ∀ (l : List α) (p : Nat × α) (k : Nat),
    p ∈ l.enumFrom k → p.2 ∈ l := by
  intro l
  induction l with
  | nil => intro p k h; exact absurd h (List.not_mem_nil _)
  | cons b t ih =>
    intro p k h
    rcases List.mem_cons.mp h with h1 | h1
    · subst h1
      exact List.mem_cons_self _ _
    · exact List.mem_cons_of_mem _ (ih p (k + 1) h1)

/-- Looking up the `i`-th name of a name-distinct group in its
enumeration-built assignment block. -/
theorem lookupP_enumFrom_get {β : Type} (pos : Nat → β) :
    ∀ (g : List UMLClass) (k i : Nat) (hi : i < g.length),
      (g.map UMLClass.name).Nodup →
      lookupP ((g.enumFrom k).map (fun p => (p.2.name, pos p.1)))
          (g.get ⟨i, hi⟩).name
        = some (pos (k + i)) := by
  intro g
  induction g with
  | nil =>
    intro k i hi _
    exact absurd hi (by simp)
  | cons c g' ih =>
    intro k i hi hnd
    cases i with
    | zero =>
      show lookupP ((c.name, pos k) :: (g'.enumFrom (k + 1)).map _) c.name
        = some (pos (k + 0))
      simp [lookupP]
    | succ i' =>
      have hi' : i' < g'.length := by
        simp only [List.length_cons] at hi
        omega
      have hnd' : (g'.map UMLClass.name).Nodup :=
        (List.nodup_cons.mp (by simpa using hnd)).2
      have hnotin : c.name ∉ g'.map UMLClass.name :=
        (List.nodup_cons.mp (by simpa using hnd)).1
      have hne : (g'.get ⟨i', hi'⟩).name ≠ c.name := by
        intro he
        exact hnotin (he ▸ List.mem_map_of_mem _ (List.get_mem g' i' hi'))
      show lookupP ((c.name, pos k) :: (g'.enumFrom (k + 1)).map _)
          (g'.get ⟨i', hi'⟩).name = some (pos (k + (i' + 1)))
      simp only [lookupP]
      rw [if_neg hne]
      rw [ih (k + 1) i' hi' hnd']
      have hk : k + 1 + i' = k + (i' + 1) := by omega
      rw [hk]

/-- Membership is preserved by first-occurrence deduplication. -/
theorem mem_firstDedup : ∀ (l : List Str) (a : Str), a ∈ l → a ∈ firstDedup l := by
  intro l
  induction l using firstDedup.induct with
  | case1 => intro a h; exact absurd h (List.not_mem_nil _)
  | case2 b rest ih =>
    intro a h
    rw [firstDedup]
    rcases List.mem_cons.mp h with h1 | h1
    · subst h1
      exact List.mem_cons_self _ _
    · by_cases hab : a = b
      · subst hab
        exact List.mem_cons_self _ _
      · refine List.mem_cons_of_mem _ (ih a ?_)
        refine List.mem_filter.mpr ⟨h1, ?_⟩
        simp [hab]

/-- Claim C7: for every layer, `layout_classes` stacks the layer's
classes vertically in sort-key order — abstract classes first, then
alphabetically — placing the `i`-th class of the sorted group at the
layer's configured `x` and at `y + 120 + i * 150` (header height 120,
node spacing 150). The hypothesis that class names are distinct reflects
the source, where classes live in a dict keyed by name. -/
theorem claim_C7_layer_stacking (cs : List UMLClass)
    (hnd : (cs.map UMLClass.name).Nodup) (lay : Str)
    (i : Nat) (hi : i < (sortedGroup cs lay).length) :
    (sortedGroup cs lay).Pairwise (fun a b => umlLe a b = true) ∧
    ∃ c' ∈ layout_classes cs,
      c'.name = ((sortedGroup cs lay).get ⟨i, hi⟩).name ∧
      c'.x = (layerXY lay).1 ∧
      c'.y = (layerXY lay).2 + 120 + (i : Int) * 150 := by
  constructor
  · exact List.sorted_mergeSort umlLe_trans umlLe_total (groupOf cs lay)
  · have hcg : (sortedGroup cs lay).get ⟨i, hi⟩ ∈ sortedGroup cs lay :=
      List.get_mem _ i hi
    have hgrp : (sortedGroup cs lay).get ⟨i, hi⟩ ∈ groupOf cs lay :=
      List.mem_mergeSort.mp hcg
    have hcs : (sortedGroup cs lay).get ⟨i, hi⟩ ∈ cs := (List.mem_filter.mp hgrp).1
    have hlayc : ((sortedGroup cs lay).get ⟨i, hi⟩).layer = lay := by
      have h2 := (List.mem_filter.mp hgrp).2
      simpa using h2
    have hgnd : ((sortedGroup cs lay).map UMLClass.name).Nodup := by
      have hsub : List.Sublist ((groupOf cs lay).map UMLClass.name)
          (cs.map UMLClass.name) :=
        List.Sublist.map _ (List.filter_sublist cs)
      have h1 : ((groupOf cs lay).map UMLClass.name).Nodup :=
        List.Nodup.sublist hsub hnd
      have hperm : List.Perm ((sortedGroup cs lay).map UMLClass.name)
          ((groupOf cs lay).map UMLClass.name) :=
        (List.mergeSort_perm (groupOf cs lay) umlLe).map UMLClass.name
      exact (List.Perm.nodup_iff hperm).mpr h1
    have hnone : ∀ q, q ≠ lay →
        lookupP (layerAssignments cs q) ((sortedGroup cs lay).get ⟨i, hi⟩).name
          = none := by
      intro q hq
      apply lookupP_eq_none
      intro hkm
      rcases List.mem_map.mp hkm with ⟨kv, hkv, hfst⟩
      rcases List.mem_map.mp hkv with ⟨p, hp, hpkv⟩
      have hp2 : p.2 ∈ sortedGroup cs q := snd_mem_of_mem_enumFromP _ p 0 hp
      have hp2g : p.2 ∈ groupOf cs q := List.mem_mergeSort.mp hp2
      have hp2cs : p.2 ∈ cs := (List.mem_filter.mp hp2g).1
      have hp2lay : p.2.layer = q := by
        simpa using (List.mem_filter.mp hp2g).2
      have hname : p.2.name = ((sortedGroup cs lay).get ⟨i, hi⟩).name := by
        rw [← hpkv] at hfst
        exact hfst
      have heq : p.2 = (sortedGroup cs lay).get ⟨i, hi⟩ :=
        List.inj_on_of_nodup_map hnd hp2cs hcs hname
      rw [heq, hlayc] at hp2lay
      exact hq hp2lay.symm
    have hlayL : lay ∈ firstDedup (cs.map UMLClass.layer) := by
      apply mem_firstDedup
      rw [← hlayc]
      exact List.mem_map_of_mem _ hcs
    have hflat : layoutAssignments cs
        = ((firstDedup (cs.map UMLClass.layer)).map (layerAssignments cs)).flatten := by
      unfold layoutAssignments
      rw [foldl_append_flatten]
      rfl
    have hlook : lookupP (layoutAssignments cs)
        ((sortedGroup cs lay).get ⟨i, hi⟩).name
        = some ((layerXY lay).1, (layerXY lay).2 + 120 + (i : Int) * 150) := by
      rw [hflat]
      rw [lookupP_flatten_first (layerAssignments cs) _ lay _ hlayL
        (fun q _ hq2 => hnone q hq2)]
      have hval := lookupP_enumFrom_get
        (fun j => ((layerXY lay).1, (layerXY lay).2 + 120 + (j : Int) * 150))
        (sortedGroup cs lay) 0 i hi hgnd
      rw [Nat.zero_add] at hval
      exact hval
    obtain ⟨c', hc'mem, hc'eq⟩ : ∃ c' ∈ layout_classes cs,
        c' = { (sortedGroup cs lay).get ⟨i, hi⟩ with
               x := (layerXY lay).1,
               y := (layerXY lay).2 + 120 + (i : Int) * 150 } := by
      refine ⟨_, List.mem_map_of_mem _ hcs, ?_⟩
      show (match lookupP (layoutAssignments cs)
              (((sortedGroup cs lay).get ⟨i, hi⟩).name) with
            | some p => { (sortedGroup cs lay).get ⟨i, hi⟩ with x := p.1, y := p.2 }
            | none => (sortedGroup cs lay).get ⟨i, hi⟩) = _
      rw [hlook]
    exact ⟨c', hc'mem, by rw [hc'eq], by rw [hc'eq], by rw [hc'eq]⟩

/-- Claim C7 witness: a single `Clock` class is placed at the
`core_systems` layer base `x = 800` and `y = 0 + 120 + 0 * 150`. -/
theorem claim_C7_witness :
    ∃ c' ∈ layout_classes [mkUMLClass (tl "Clock")],
      c'.x = 800 ∧ c'.y = 120 := by
  have hsg : sortedGroup [mkUMLClass (tl "Clock")] (tl "core_systems")
      = [mkUMLClass (tl "Clock")] := by
    unfold sortedGroup
    rw [show groupOf [mkUMLClass (tl "Clock")] (tl "core_systems")
        = [mkUMLClass (tl "Clock")] from by decide]
    exact List.mergeSort_singleton _
  have hlen : 0 < (sortedGroup [mkUMLClass (tl "Clock")] (tl "core_systems")).length := by
    rw [hsg]
    decide
  have h := claim_C7_layer_stacking [mkUMLClass (tl "Clock")] (by decide)
    (tl "core_systems") 0 hlen
  obtain ⟨c', hmem, _, hx, hy⟩ := h.2
  refine ⟨c', hmem, ?_, ?_⟩
  · rw [hx]
    decide
  · rw [hy]
    decide
